import Mathlib

/-!
Verification of the crawlenginepro RAG pipeline services against their
natural-language specification.

The Python services are shallowly embedded: Python strings are modelled as
`List Char` (`Str`) where character-level processing matters, scores and
weights (Python floats that are only added, multiplied, and compared) are
modelled as `ℚ`, dictionaries with fixed keys become structures, and calls
to external services (the regex engine, the LLM gateway, the embeddings
and storage services) are abstracted as function parameters ("oracles").
All definitions are executable so concrete inputs can be evaluated.
-/

namespace Spec2Proof

/-! ## String utilities (Python `str` operations on `List Char`) -/

/-- Python strings modelled as lists of characters. -/
abbrev Str := List Char

/-- Convert a Lean string literal to the `Str` model. -/
def strOf (s : String) : Str := s.data

/-- Characters removed by Python's `str.strip()` (ASCII whitespace). -/
def isPySpace (c : Char) : Bool :=
  c == ' ' || c == '\t' || c == '\n' || c == '\x0d' || c == '\x0b' || c == '\x0c'

/-- Python `str.strip()`: drop leading and trailing whitespace. -/
def pyStrip (s : Str) : Str :=
  ((s.dropWhile isPySpace).reverse.dropWhile isPySpace).reverse

/-- Python `str.lower()` restricted to ASCII (all inputs of interest are ASCII). -/
def pyLower (s : Str) : Str := s.map Char.toLower

/-- Python `s.split(sep)` for a single-character separator: always returns a
non-empty list of separator-free pieces; `"".split(sep) == [""]`. -/
def splitOnChar (sep : Char) : Str → List Str
  | [] => [[]]
  | c :: cs =>
    if c = sep then [] :: splitOnChar sep cs
    else
      match splitOnChar sep cs with
      | [] => [[c]]
      | h :: t => (c :: h) :: t

/-- Python `sep.join(pieces)`. -/
def joinWith (sep : Str) : List Str → Str
  | [] => []
  | [p] => p
  | p :: ps => p ++ sep ++ joinWith sep ps

/-- Word character for Python's regex `\w` (ASCII). -/
def isWordChar (c : Char) : Bool := c.isAlphanum || c == '_'

/-- Python `re.findall(r'\w+', s)`: the maximal runs of word characters. -/
def findWords : Str → List Str
  | [] => []
  | c :: cs =>
    if isWordChar c then
      (c :: cs.takeWhile isWordChar) :: findWords (cs.dropWhile isWordChar)
    else
      findWords cs
termination_by s => s.length
decreasing_by
  · simpa using Nat.lt_succ_of_le (cs.dropWhile_sublist isWordChar).length_le
  · simp

/-- Number of elements of a Python set, modelled as the number of distinct
elements of a list. -/
def setCard (l : List Str) : Nat := l.dedup.length

/-- Python `setA.intersection(setB)` as a duplicate-free list. -/
def interList (a b : List Str) : List Str := a.dedup.filter (fun x => x ∈ b)

/-- Cardinality of the union of two Python sets given as lists. -/
def unionCard (a b : List Str) : Nat := (a ++ b).dedup.length

/-- Number of non-overlapping occurrences of `"->"` (Python `s.count("->")`). -/
def countDashArrow : Str → Nat
  | '-' :: '>' :: rest => countDashArrow rest + 1
  | _ :: rest => countDashArrow rest
  | [] => 0

/-! ## Chunker post-filter
(`Ingestion/services/chunking/v1.0.0/chunking_orchestrator.py`) -/

/-- The separator characters of `is_valid_chunk` (`'-*_ \t\n'`). -/
def sepChars : List Char := ['-', '*', '_', ' ', '\t', '\n']

/-- `is_valid_chunk`: keep a chunk iff it is non-empty after stripping, not
composed solely of separator punctuation, and either starts with `#` or has
at least 5 alphanumeric characters. -/
def is_valid_chunk (chunkText : Str) : Bool :=
  let stripped := pyStrip chunkText
  if stripped.isEmpty then false
  else if stripped.all (fun c => c ∈ sepChars) then false
  else if stripped.headD ' ' == '#' then true
  else if 5 ≤ (stripped.filter (fun c => c.isAlphanum)).length then true
  else false

/-- `perform_chunking`, with the langchain splitter abstracted as the function
parameter `splitter` (selected from the request's method and configuration):
split, then filter out invalid chunks. -/
def perform_chunking (splitter : Str → List Str) (text : Str) : List Str :=
  (splitter text).filter is_valid_chunk

/-! ## LLM gateway response cache
(`Ingestion/services/llm_gateway/v1.0.0/cache.py` and `llm_gateway.py`) -/

/-- The data hashed by `ResponseCache._generate_key`: exactly
(model, messages, temperature, max_tokens).  The SHA-256 digest of the
canonical JSON dump is modelled by the tuple itself.  A message is a
(role, content) pair. -/
structure CacheKey where
  model : String
  messages : List (String × String)
  temperature : ℚ
  maxTokens : Option Nat
deriving DecidableEq

/-- A `CacheEntry`: the stored response, the insertion timestamp, and a hit
counter.  The response type is abstract (`α`). -/
structure CEntry (α : Type) where
  response : α
  timestamp : ℚ
  hits : Nat
deriving DecidableEq

/-- The cache dictionary, in Python dict insertion order. -/
abbrev CacheState (α : Type) := List (CacheKey × CEntry α)

/-- Python `key in cache` / `cache[key]` lookup. -/
def lookupKey {α} (st : CacheState α) (k : CacheKey) : Option (CEntry α) :=
  match st with
  | [] => none
  | (k', e) :: rest => if k' = k then some e else lookupKey rest k

/-- Python `del cache[key]`. -/
def eraseKey {α} (st : CacheState α) (k : CacheKey) : CacheState α :=
  match st with
  | [] => []
  | (k', e) :: rest => if k' = k then rest else (k', e) :: eraseKey rest k

/-- Python `cache[key] = entry`: replace in place if present, else append. -/
def insertKey {α} (st : CacheState α) (k : CacheKey) (e : CEntry α) : CacheState α :=
  match st with
  | [] => [(k, e)]
  | (k', e') :: rest =>
    if k' = k then (k, e) :: rest else (k', e') :: insertKey rest k e

/-- `ResponseCache.get`: miss on absent key; lazily delete and miss when the
entry is older than `ttl`; otherwise return the stored response together with
its age (the Python code returns a copy with `cached=True` and
`cache_age_seconds=age` added, modelled as the `(response, age)` pair).
Returns the result and the updated cache. -/
def ResponseCache.get {α} (st : CacheState α) (ttl : ℚ) (k : CacheKey) (now : ℚ) :
    Option (α × ℚ) × CacheState α :=
  match lookupKey st k with
  | none => (none, st)
  | some e =>
    if ttl < now - e.timestamp then (none, eraseKey st k)
    else (some (e.response, now - e.timestamp),
          insertKey st k { e with hits := e.hits + 1 })

/-- `ResponseCache.set`: when the cache is full first evict the entry with the
oldest timestamp (first such in insertion order), then store the response with
the current time. -/
def ResponseCache.set {α} (st : CacheState α) (maxSize : Nat) (k : CacheKey)
    (response : α) (now : ℚ) : CacheState α :=
  let st' :=
    if maxSize ≤ st.length then
      match st with
      | [] => []
      | (k0, e0) :: rest =>
        eraseKey st (rest.foldl
          (fun best p => if p.2.timestamp < best.2.timestamp then p else best)
          (k0, e0)).1
    else st
  insertKey st' k { response := response, timestamp := now, hits := 0 }

/-- The fields of a `ChatCompletionRequest` that the gateway's cache logic
reads (other request fields never reach the cache key). -/
structure ChatRequest where
  model : String
  messages : List (String × String)
  temperature : ℚ
  maxTokens : Option Nat
  stream : Bool

/-- The cache key built by the gateway for a request. -/
def requestKey (req : ChatRequest) : CacheKey :=
  { model := req.model, messages := req.messages,
    temperature := req.temperature, maxTokens := req.maxTokens }

/-- Outcome of the outbound provider call (Nebius / SambaNova), abstracted. -/
inductive ProviderOutcome (α : Type)
  | success (resp : α)
  | httpError (status : Nat) (text : String)
  | timeout

/-- What `chat_completions` returns to its caller. -/
inductive ChatOutcome (α : Type)
  | cachedResp (resp : α) (age : ℚ)
  | fresh (resp : α)
  | streaming
  | error (status : Nat)
deriving DecidableEq

/-- The cache-relevant control flow of `chat_completions`: consult the cache
only for non-streaming requests with `use_cache`; on a hit return the cached
response; streaming requests return a `StreamingResponse` without touching
the cache; provider errors (HTTP status error or timeout) raise without
caching; successful non-streaming responses are stored.  Output cleaning,
token accounting and tenant tagging do not affect the cache and are folded
into the abstract response `α`. -/
def chat_completions {α} (st : CacheState α) (ttl : ℚ) (maxSize : Nat)
    (req : ChatRequest) (useCache : Bool) (provider : ProviderOutcome α)
    (now : ℚ) : ChatOutcome α × CacheState α :=
  let readCache := useCache && !req.stream
  let hit : Option (α × ℚ) × CacheState α :=
    if readCache then ResponseCache.get st ttl (requestKey req) now
    else (none, st)
  match hit with
  | (some (r, age), st') => (ChatOutcome.cachedResp r age, st')
  | (none, st') =>
    if req.stream then (ChatOutcome.streaming, st')
    else
      match provider with
      | ProviderOutcome.success r =>
        let st'' :=
          if readCache then ResponseCache.set st' maxSize (requestKey req) r now
          else st'
        (ChatOutcome.fresh r, st'')
      | ProviderOutcome.httpError status _ => (ChatOutcome.error status, st')
      | ProviderOutcome.timeout => (ChatOutcome.error 504, st')

/-! ## Metadata-boost search
(`Retrieval/services/search/v1.0.0/metadata_boost.py`, `config.py`,
`search_api.py`) -/

/-- The stopword list of `extract_query_keywords`. -/
def stopwords : List Str :=
  [strOf "the", strOf "a", strOf "an", strOf "is", strOf "are", strOf "was",
   strOf "were", strOf "to", strOf "of", strOf "in", strOf "on", strOf "at",
   strOf "by", strOf "for", strOf "with", strOf "from", strOf "what",
   strOf "how", strOf "why", strOf "when", strOf "where", strOf "who",
   strOf "which", strOf "did", strOf "do", strOf "does"]

/-- `extract_query_keywords`: `\w+` tokens of the lowercased query, with
stopwords and words of length ≤ 2 removed; a Python set (duplicate-free). -/
def extract_query_keywords (query : Str) : List Str :=
  ((findWords (pyLower query)).filter
    (fun w => w ∉ stopwords && 2 < w.length)).dedup

/-- `boost_keywords`: `min(matches, 3) × weight` over the intersection of the
query keywords with the comma-split, stripped, lowercased chunk keywords. -/
def boost_keywords (queryKeywords : List Str) (chunkKeywords : Str) (weight : ℚ) :
    ℚ × List Str :=
  if chunkKeywords.isEmpty then (0, [])
  else
    let chunkKw := ((splitOnChar ',' chunkKeywords).filter
      (fun kw => !(pyStrip kw).isEmpty)).map (fun kw => pyLower (pyStrip kw))
    let matchList := interList queryKeywords chunkKw
    (min matchList.length 3 * weight, matchList)

/-- `boost_topics`: `weight` per comma-split topic whose word set meets the
query keywords. -/
def boost_topics (queryKeywords : List Str) (chunkTopics : Str) (weight : ℚ) :
    ℚ × List Str :=
  if chunkTopics.isEmpty then (0, [])
  else
    let topics := ((splitOnChar ',' chunkTopics).filter
      (fun t => !(pyStrip t).isEmpty)).map (fun t => pyLower (pyStrip t))
    let matchList := topics.filter
      (fun topic => queryKeywords.any (fun w => w ∈ findWords topic))
    (matchList.length * weight, matchList)

/-- Maximal Jaccard similarity of the query keywords against the word sets of
the `?`-split questions (`boost_questions` inner loop). -/
def maxQuestionSimilarity (queryWords : List Str) (questions : List Str) : ℚ :=
  questions.foldl
    (fun acc question =>
      let qWords := findWords question
      if qWords.isEmpty then acc
      else max acc ((interList queryWords qWords).length /
        (unionCard queryWords qWords : ℚ)))
    0

/-- `boost_questions`: full weight when the best Jaccard similarity exceeds
0.5, half weight when it exceeds 0.3, else 0. -/
def boost_questions (query : Str) (chunkQuestions : Str) (weight : ℚ) : ℚ :=
  if chunkQuestions.isEmpty then 0
  else
    let queryWords := extract_query_keywords query
    let questions := ((splitOnChar '?' chunkQuestions).filter
      (fun q => !(pyStrip q).isEmpty)).map (fun q => pyLower (pyStrip q))
    let maxSimilarity := maxQuestionSimilarity queryWords questions
    if 1/2 < maxSimilarity then weight
    else if 3/10 < maxSimilarity then weight * (1/2)
    else 0

/-- `boost_summary`: weight scaled by the fraction of query keywords found in
the summary (full above 0.6, scaled above 0.3, else 0). -/
def boost_summary (queryKeywords : List Str) (chunkSummary : Str) (weight : ℚ) : ℚ :=
  if chunkSummary.isEmpty then 0
  else
    let summaryWords := findWords (pyLower chunkSummary)
    if queryKeywords.isEmpty then 0
    else
      let coverage : ℚ :=
        (interList queryKeywords summaryWords).length / (setCard queryKeywords : ℚ)
      if 3/5 < coverage then weight
      else if 3/10 < coverage then weight * (coverage / (3/5))
      else 0

/-- The `boost_weights` dictionary of a request: any of the field keys may be
absent (`weights.get(key, default)`). -/
structure BoostWeights where
  keywords : Option ℚ := none
  topics : Option ℚ := none
  questions : Option ℚ := none
  summary : Option ℚ := none
  semanticKeywords : Option ℚ := none
  entityRelationships : Option ℚ := none
  attributes : Option ℚ := none

/-- `config.BOOST_WEIGHTS` with its default environment values: registered
weights for all seven metadata fields. -/
def configBoostWeights : BoostWeights :=
  { keywords := some (10/100), topics := some (6/100), questions := some (8/100),
    summary := some (6/100), semanticKeywords := some (15/100),
    entityRelationships := some (10/100), attributes := some (8/100) }

/-- `config.MAX_TOTAL_BOOST` default. -/
def MAX_TOTAL_BOOST : ℚ := 3/5

/-- A search hit as returned by the storage service, carrying the vector
score and the seven metadata fields (`result.get(field, "")`). -/
structure RawHit where
  id : String := ""
  text : Str := []
  score : ℚ := 0
  keywords : Str := []
  topics : Str := []
  questions : Str := []
  summary : Str := []
  semanticKeywords : Str := []
  entityRelationships : Str := []
  attributes : Str := []

/-- The per-field match details reported alongside the boost. -/
structure MetadataMatch where
  keywordsMatched : List Str := []
  topicsMatched : List Str := []
  questionSimilarity : ℚ := 0
  summaryCoverage : ℚ := 0
deriving DecidableEq

/-- `apply_metadata_boost`: sums the contributions of the `keywords`,
`topics`, `questions` and `summary` fields (these four are the only fields
the function reads), caps the total at `max_boost`, and reports the match
details. -/
def apply_metadata_boost (query : Str) (chunk : RawHit) (weights : BoostWeights)
    (maxBoost : ℚ) : ℚ × MetadataMatch :=
  let queryKw := extract_query_keywords query
  let (kwBoost, kwMatches) :=
    boost_keywords queryKw chunk.keywords (weights.keywords.getD (10/100))
  let (topicBoost, topicMatches) :=
    boost_topics queryKw chunk.topics (weights.topics.getD (5/100))
  let questionBoost :=
    boost_questions query chunk.questions (weights.questions.getD (8/100))
  let summaryBoost :=
    boost_summary queryKw chunk.summary (weights.summary.getD (7/100))
  let questionWeight := weights.questions.getD (8/100)
  let questionSim := if 0 < questionWeight then questionBoost / questionWeight else 0
  let summaryWeight := weights.summary.getD (7/100)
  let summaryCov := if 0 < summaryWeight then summaryBoost / summaryWeight else 0
  let totalBoost := min (kwBoost + topicBoost + questionBoost + summaryBoost) maxBoost
  (totalBoost,
   { keywordsMatched := kwMatches, topicsMatched := topicMatches,
     questionSimilarity := questionSim, summaryCoverage := summaryCov })

/-- The fields of a `SearchRequest` read by the boosting and ranking steps of
`search_endpoint` (collection, tenant and filter only parameterize the
external storage call). -/
structure SearchRequestE where
  queryText : Str
  topK : Nat := 10
  useMetadataBoost : Bool := true
  boostWeights : Option BoostWeights := none

/-- One entry of `search_endpoint`'s result list. -/
structure SearchResultItem where
  chunkId : String
  score : ℚ
  vectorScore : ℚ
  metadataBoost : ℚ
  metadataMatches : MetadataMatch
deriving DecidableEq

/-- The weights actually used by `search_endpoint`: the request's
`boost_weights` or the configured defaults (`request.boost_weights or
config.BOOST_WEIGHTS`; an empty override dict is falsy and behaves like
`None`). -/
def effectiveWeights (req : SearchRequestE) : BoostWeights :=
  req.boostWeights.getD configBoostWeights

/-- Steps 3–4 of `search_endpoint` applied to the hits returned by the
storage service: boost each hit when `use_metadata_boost` is set (with the
request's weights or the configured defaults), sort by final score
descending (Python's stable sort), and keep the top `top_k`. -/
def search_endpoint_rank (req : SearchRequestE) (searchResults : List RawHit) :
    List SearchResultItem :=
  let boostWeights := effectiveWeights req
  let boostedResults := searchResults.map (fun result =>
    if req.useMetadataBoost then
      let (metadataBoost, metadataMatch) :=
        apply_metadata_boost req.queryText result boostWeights MAX_TOTAL_BOOST
      { chunkId := result.id, score := result.score + metadataBoost,
        vectorScore := result.score, metadataBoost := metadataBoost,
        metadataMatches := metadataMatch }
    else
      { chunkId := result.id, score := result.score, vectorScore := result.score,
        metadataBoost := 0, metadataMatches := {} })
  (boostedResults.insertionSort (fun a b => b.score ≤ a.score)).take req.topK

/-! ## Intent classifier, Tier 1 pattern scoring
(`Retrieval/services/intent/v1.0.0/pattern_matcher_v2.py`) -/

/-- One regex match found for a pattern: its pattern confidence from the
library, the match start position and the matched length (the regex engine
itself is external; its per-pattern outcomes are the input of the scoring
pipeline). -/
structure PatternMatchR where
  confidence : ℚ
  position : Nat
  length : Nat
deriving DecidableEq

/-- The per-query match table: for each intent of the library (in library
order) the list of successful pattern matches (in pattern order). -/
abbrev MatchTable := List (String × List PatternMatchR)

/-- `IntentScore` (the audit-trail `penalties`/`boosts` string lists are
omitted; they do not feed back into any score). -/
structure IntentScoreE where
  baseScore : ℚ
  patternMatches : List PatternMatchR
  finalScore : ℚ
deriving DecidableEq

/-- `INTENT_CONFLICTS`: generic intent, its specific-intent competitors, and
the penalty factor. -/
def INTENT_CONFLICTS : List (String × List String × ℚ) :=
  [("list_enumeration",
    (["relationship_mapping", "cross_reference", "aggregation", "negative_logic"],
     65/100)),
   ("factual_retrieval",
    (["comparison", "aggregation", "temporal", "cross_reference"], 75/100)),
   ("definition_explanation",
    (["simple_lookup", "comparison", "aggregation"], 70/100))]

/-- `find_all_matches`: intents with at least one match get an `IntentScore`
whose base (and initial final) score is the sum of the matched patterns'
confidences. -/
def find_all_matches (tbl : MatchTable) : List (String × IntentScoreE) :=
  tbl.filterMap (fun p =>
    if p.2.isEmpty then none
    else
      let baseScore := (p.2.map (·.confidence)).sum
      some (p.1, { baseScore := baseScore, patternMatches := p.2,
                   finalScore := baseScore }))

/-- Earliest match position (`min(m.position for m in matches)`; the caller
guarantees a non-empty list). -/
def earliestPosition : List PatternMatchR → Nat
  | [] => 0
  | m :: ms => ms.foldl (fun acc x => min acc x.position) m.position

/-- Longest match length (`max(m.length for m in matches)`). -/
def longestMatch : List PatternMatchR → Nat
  | [] => 0
  | m :: ms => ms.foldl (fun acc x => max acc x.length) m.length

/-- The boost factors of `apply_scoring_rules` step 2, compounded
multiplicatively: ×1.25 for ≥ 2 matched patterns, ×1.10 for an earliest
match within the first 20 characters, ×1.15 for a longest match of ≥ 30
characters. -/
def boostFactor (ms : List PatternMatchR) : ℚ :=
  (if 2 ≤ ms.length then 125/100 else 1) *
  (if earliestPosition ms ≤ 20 then 110/100 else 1) *
  (if 30 ≤ longestMatch ms then 115/100 else 1)

/-- The conflict-penalty factor of `apply_scoring_rules` step 1 for `intent`,
given the set of intents that matched at all (the keys of the score dict):
the registered factor when some enumerated competitor is present, else 1. -/
def penaltyFactor (matchedIntents : List String) (intent : String) : ℚ :=
  match INTENT_CONFLICTS.find? (fun r => r.1 = intent) with
  | none => 1
  | some r => if r.2.1.any (fun c => matchedIntents.contains c) then r.2.2 else 1

/-- `apply_scoring_rules`: multiply each intent's score by its conflict
penalty (step 1), then by its boost factors (step 2).  Each entry's final
score depends only on its own data and the key set of the table, so the
in-place update loop is a map. -/
def apply_scoring_rules (scores : List (String × IntentScoreE)) :
    List (String × IntentScoreE) :=
  let matchedIntents := scores.map (·.1)
  scores.map (fun p =>
    (p.1, { p.2 with finalScore :=
      p.2.finalScore * penaltyFactor matchedIntents p.1 * boostFactor p.2.patternMatches }))

/-- Step 3 of `match`: cap every final score at 1.0. -/
def normalizeScores (scores : List (String × IntentScoreE)) :
    List (String × IntentScoreE) :=
  scores.map (fun p => (p.1, { p.2 with finalScore := min p.2.finalScore 1 }))

/-- Step 4 of `match`: Python's stable `sorted(..., key=final_score,
reverse=True)`. -/
def sortScoresDesc (scores : List (String × IntentScoreE)) :
    List (String × IntentScoreE) :=
  scores.insertionSort (fun a b => b.2.finalScore ≤ a.2.finalScore)

instance : IsTotal (String × IntentScoreE)
    (fun a b => b.2.finalScore ≤ a.2.finalScore) :=
  ⟨fun a b => le_total b.2.finalScore a.2.finalScore⟩

instance : IsTrans (String × IntentScoreE)
    (fun a b => b.2.finalScore ≤ a.2.finalScore) :=
  ⟨fun _ _ _ hab hbc => le_trans hbc hab⟩

/-- The penalty condition in the claim's wording: the registered factor
applies exactly when some enumerated specific-intent competitor has a
non-zero score.  (The code tests presence of the competitor in the score
dictionary instead; the two agree whenever all pattern confidences are
positive.) -/
def claimPenaltyFactor (tbl : MatchTable) (intent : String) : ℚ :=
  match INTENT_CONFLICTS.find? (fun r => r.1 = intent) with
  | none => 1
  | some r =>
    if ∃ p ∈ find_all_matches tbl, p.1 ∈ r.2.1 ∧ p.2.baseScore ≠ 0 then r.2.2
    else 1

/-- `CONFIDENCE_THRESHOLDS` of `AdvancedPatternMatcher`. -/
def THRESHOLD_HIGH : ℚ := 9/10
def THRESHOLD_MEDIUM : ℚ := 7/10
def THRESHOLD_LOW : ℚ := 1/2

/-- `AdvancedPatternMatcher.match` (metadata and statistics dropped): score
all matches, apply penalties and boosts, cap at 1.0, pick the best-scoring
intent, and return it unless its score is below the low threshold. -/
def matchQuery (tbl : MatchTable) : Option (String × ℚ) :=
  let scores := find_all_matches tbl
  if scores.isEmpty then none
  else
    let scored := normalizeScores (apply_scoring_rules scores)
    let sorted := sortScoresDesc scored
    let best := sorted.headD ("", { baseScore := 0, patternMatches := [], finalScore := 0 })
    if best.2.finalScore < THRESHOLD_LOW then none
    else some (best.1, best.2.finalScore)

/-- `AdvancedPatternMatcher.get_confidence_level`. -/
def get_confidence_level (confidence : ℚ) : String :=
  if THRESHOLD_HIGH ≤ confidence then "high"
  else if THRESHOLD_MEDIUM ≤ confidence then "medium"
  else "low"

/-! ## Intent classifier, tier dispatch and thresholds
(`Retrieval/services/intent/v1.0.0/intent_api.py`, `config.py`) -/

/-- How `analyze_intent` consumes the Tier-1 result: use it directly (high
confidence), use its intent name but verify via the LLM (medium), or run the
full LLM classification (no match, or low confidence). -/
inductive TierDecision
  | direct (intent : String) (confidence : ℚ)
  | verify (intent : String) (confidence : ℚ)
  | fullLLM
deriving DecidableEq

/-- The branching of `analyze_intent` STEP 1/STEP 2 on the pattern-match
result. -/
def tierDispatch : Option (String × ℚ) → TierDecision
  | none => TierDecision.fullLLM
  | some (patternIntent, patternConfidence) =>
    if get_confidence_level patternConfidence = "high" then
      TierDecision.direct patternIntent patternConfidence
    else if get_confidence_level patternConfidence = "medium" then
      TierDecision.verify patternIntent patternConfidence
    else
      TierDecision.fullLLM

/-- The parsed LLM classification (`call_llm_gateway` result; the function
returns a safe default dict on any error, so it always yields these fields). -/
structure LLMData where
  intent : String
  language : String := "en"
  complexity : String := "moderate"
  requiresMath : Bool := false
  confidence : ℚ

/-- `config.CONFIDENCE_THRESHOLD_REJECT` default. -/
def CONFIDENCE_THRESHOLD_REJECT : ℚ := 2/5

/-- `config.CONFIDENCE_THRESHOLD_FALLBACK` default. -/
def CONFIDENCE_THRESHOLD_FALLBACK : ℚ := 3/5

/-- `config.SUPPORTED_INTENTS`. -/
def SUPPORTED_INTENTS : List String :=
  ["simple_lookup", "list_enumeration", "yes_no", "definition_explanation",
   "factual_retrieval", "comparison", "aggregation", "temporal",
   "relationship_mapping", "contextual_explanation", "negative_logic",
   "cross_reference", "synthesis", "document_navigation", "exception_handling"]

/-- The intent/confidence/language/complexity/requires_math/used_pattern
state after STEP 1 and STEP 2 of `analyze_intent`, before threshold
enforcement. -/
structure PreClassification where
  intent : String
  confidence : ℚ
  language : String
  complexity : String
  requiresMath : Bool
  usedPattern : Bool

/-- STEP 1 + STEP 2 of `analyze_intent`: the high-confidence pattern path
uses the pattern result directly (the other fields keep their initializers);
the medium path verifies with the LLM, keeping the pattern intent with the
max of the two confidences on agreement and deferring to the LLM on
disagreement; otherwise the full LLM classification is used. -/
def preClassify (patternResult : Option (String × ℚ)) (llm : LLMData) :
    PreClassification :=
  match tierDispatch patternResult with
  | TierDecision.direct i c =>
    { intent := i, confidence := c, language := "en", complexity := "moderate",
      requiresMath := false, usedPattern := true }
  | TierDecision.verify i c =>
    if llm.intent = i then
      { intent := i, confidence := max c llm.confidence, language := llm.language,
        complexity := llm.complexity, requiresMath := llm.requiresMath,
        usedPattern := false }
    else
      { intent := llm.intent, confidence := llm.confidence,
        language := llm.language, complexity := llm.complexity,
        requiresMath := llm.requiresMath, usedPattern := false }
  | TierDecision.fullLLM =>
    { intent := llm.intent, confidence := llm.confidence, language := llm.language,
      complexity := llm.complexity, requiresMath := llm.requiresMath,
      usedPattern := false }

/-- A `query_logger.log_query_event` call (`event_type` selects the file:
`rejected` → `rejected_queries.jsonl`, `low_confidence` →
`low_confidence_queries.jsonl`). -/
inductive LogEvent
  | rejected (intent : String) (confidence : ℚ)
  | lowConfidence (intent : String) (confidence : ℚ)
deriving DecidableEq

/-- The response body of `/v1/analyze` (prompt composition and model
recommendation are orthogonal to the claims and omitted). -/
structure AnalyzeResponse where
  intent : String
  confidence : ℚ
  language : String
  complexity : String
  requiresMath : Bool
  usedPattern : Bool
  analysisMethod : String
deriving DecidableEq

deriving instance DecidableEq for Except

/-- `analyze_intent` from classification through threshold enforcement:
reject with HTTP 400 below `CONFIDENCE_THRESHOLD_REJECT` (logging a rejected
event), coerce the intent to `factual_retrieval` below
`CONFIDENCE_THRESHOLD_FALLBACK` (logging a low-confidence event), map
unsupported intent names to `factual_retrieval`, and report
`used_pattern` / `analysis_method` in the metadata.  Returns the HTTP-400
rejection or the response, together with the emitted log events. -/
def analyze_intent (patternResult : Option (String × ℚ)) (llm : LLMData) :
    Except (Nat × String) AnalyzeResponse × List LogEvent :=
  let pre := preClassify patternResult llm
  if pre.confidence < CONFIDENCE_THRESHOLD_REJECT then
    (Except.error (400, "Query intent unclear. Please rephrase your question more clearly."),
     [LogEvent.rejected pre.intent pre.confidence])
  else
    let fallback := pre.confidence < CONFIDENCE_THRESHOLD_FALLBACK
    let intent1 := if fallback then "factual_retrieval" else pre.intent
    let complexity1 := if fallback then "moderate" else pre.complexity
    let logs := if fallback then [LogEvent.lowConfidence pre.intent pre.confidence] else []
    let intent2 := if SUPPORTED_INTENTS.contains intent1 then intent1 else "factual_retrieval"
    (Except.ok
      { intent := intent2, confidence := pre.confidence, language := pre.language,
        complexity := complexity1, requiresMath := pre.requiresMath,
        usedPattern := pre.usedPattern,
        analysisMethod := if pre.usedPattern then "pattern_match" else "llm_classification" },
     logs)

/-! ## Metadata extractor post-processing
(`Ingestion/services/metadata/v1.0.0/metadata_api.py`, `clean_metadata_response`) -/

/-- The seven string-valued metadata fields of an extraction result (the
non-field keys of the response dict — chunk id, model, timings — are not
touched by `clean_metadata_response`). -/
structure MetaFields where
  keywords : Str := []
  topics : Str := []
  questions : Str := []
  summary : Str := []
  semanticKeywords : Str := []
  entityRelationships : Str := []
  attributes : Str := []

/-- The `generic_placeholders` set. -/
def generic_placeholders : List Str :=
  [strOf "full product names", strOf "company names", strOf "model numbers",
   strOf "skus", strOf "product name", strOf "company name",
   strOf "model number", strOf "sku", strOf "brand names", strOf "brand name",
   strOf "technical terms", strOf "technical term", strOf "specifications",
   strOf "specification", strOf "features", strOf "feature"]

/-- The comma-split, stripped, non-empty items of a field (the list
comprehension `[k.strip() for k in field.split(",") if k.strip()]`). -/
def commaItems (s : Str) : List Str :=
  ((splitOnChar ',' s).map pyStrip).filter (fun k => !k.isEmpty)

/-- Step 1 of `clean_metadata_response`: the lowercased keyword set used for
deduplication (empty when the `keywords` field is falsy). -/
def keywordsSet (m : MetaFields) : List Str :=
  if m.keywords.isEmpty then [] else (commaItems m.keywords).map pyLower

/-- Step 1 of `clean_metadata_response`: drop every `semantic_keywords` item
whose lowercase form is already a (lowercased) keyword, and rejoin with
`", "`. -/
def dedupSemantic (m : MetaFields) : Str :=
  if m.semanticKeywords.isEmpty then m.semanticKeywords
  else
    joinWith (strOf ", ")
      ((commaItems m.semanticKeywords).filter
        (fun s => pyLower s ∉ keywordsSet m))

/-- Step 2 of `clean_metadata_response`: drop generic placeholder keywords
and rejoin with `", "`. -/
def filterKeywords (m : MetaFields) : Str :=
  if m.keywords.isEmpty then m.keywords
  else
    joinWith (strOf ", ")
      ((commaItems m.keywords).filter
        (fun k => pyLower k ∉ generic_placeholders))

/-- The triplet validity test of step 3: contains an arrow and at least two
arrow tokens in total (`'→'` occurrences plus `"->"` occurrences). -/
def validTriplet (t : Str) : Bool :=
  ('→' ∈ t || countDashArrow t ≥ 1) && 2 ≤ t.count '→' + countDashArrow t

/-- Step 3 of `clean_metadata_response`: keep only pipe-split triplets with
at least two arrows, rejoined with `" | "` (empty string when none
survive). -/
def validateER (m : MetaFields) : Str :=
  if m.entityRelationships.isEmpty then m.entityRelationships
  else
    let validTriplets := ((splitOnChar '|' m.entityRelationships).map pyStrip).filter
      validTriplet
    if validTriplets.isEmpty then [] else joinWith (strOf " | ") validTriplets

/-- Index of the last `','` or `'|'` in a string
(`max(truncated.rfind(","), truncated.rfind("|"))`; `none` for Python's
`-1`). -/
def lastSepIdx (s : Str) : Option Nat :=
  s.reverse.findIdx? (fun c => c == ',' || c == '|') |>.map (fun i => s.length - 1 - i)

/-- Step 4 of `clean_metadata_response` for one field: when over the limit,
cut at the limit, back up to the last separator if one occurs at a positive
index, and strip. -/
def truncateField (limit : Nat) (s : Str) : Str :=
  if !s.isEmpty && limit < s.length then
    let truncated := s.take limit
    match lastSepIdx truncated with
    | some i => if 0 < i then pyStrip (truncated.take i) else pyStrip truncated
    | none => pyStrip truncated
  else s

/-- `clean_metadata_response`: deduplicate `semantic_keywords` against
`keywords`, filter placeholder keywords, validate `entity_relationships`
triplets, then truncate every field to its schema limit
(500/500/500/1000/800/1000/1000). -/
def clean_metadata_response (m : MetaFields) : MetaFields :=
  { keywords := truncateField 500 (filterKeywords m),
    topics := truncateField 500 m.topics,
    questions := truncateField 500 m.questions,
    summary := truncateField 1000 m.summary,
    semanticKeywords := truncateField 800 (dedupSemantic m),
    entityRelationships := truncateField 1000 (validateER m),
    attributes := truncateField 1000 m.attributes }

/-! ## Batch metadata operation
(`Ingestion/v1.0.0/main_ingestion_api.py`, `call_metadata_service_batch`, and
`Ingestion/services/metadata/v1.0.0/metadata_api.py`,
`extract_metadata_batch`) -/

/-- The four legacy fields of a `MetadataResponse` that the batch error
marker fills (`keywords="", topics="", questions="", summary="Error: ..."`);
successful responses are abstracted by the oracle below. -/
structure MetaResponse where
  keywords : String := ""
  topics : String := ""
  questions : String := ""
  summary : String := ""
deriving DecidableEq

/-- One position of the batch result: the empty dict `{}` re-inserted for a
skipped chunk, or a metadata-service response. -/
inductive BatchItem
  | emptyItem
  | resp (m : MetaResponse)
deriving DecidableEq

/-- One position of `extract_metadata_batch`'s gather loop: a successful
`extract_metadata` result is passed through, an exception becomes an
empty-field response with an `Error:` summary.  The per-chunk
`extract_metadata` outcome is the oracle `g`. -/
def extractOutcome (g : String → Except String MetaResponse) (text : String) :
    MetaResponse :=
  match g text with
  | Except.ok r => r
  | Except.error e =>
    { keywords := "", topics := "", questions := "", summary := "Error: " ++ e }

/-- `extract_metadata_batch` of the metadata service: one task per requested
chunk, so the result list always has one entry per requested chunk, in
order (`asyncio.gather` preserves task order). -/
def extract_metadata_batch (g : String → Except String MetaResponse)
    (chunks : List String) : List MetaResponse :=
  chunks.map (extractOutcome g)

/-- `MIN_CHUNK_LENGTH` of `call_metadata_service_batch`. -/
def MIN_CHUNK_LENGTH : Nat := 10

/-- `METADATA_BATCH_SIZE` of `call_metadata_service_batch`. -/
def METADATA_BATCH_SIZE : Nat := 40

/-- Fuelled helper for `batchesOf` (the fuel is only a termination device;
`batchesOf` supplies enough for any positive `k`). -/
def batchesOfAux (k : Nat) : Nat → List α → List (List α)
  | 0, _ => []
  | _, [] => []
  | fuel + 1, x :: xs => (x :: xs).take k :: batchesOfAux k fuel ((x :: xs).drop k)

/-- Python's `lst[i:i+k]` slicing loop: partition a list into consecutive
batches of at most `k` (no empty batches for a non-empty list). -/
def batchesOf (k : Nat) (l : List α) : List (List α) :=
  batchesOfAux k l.length l

/-- The re-insertion loop of `call_metadata_service_batch`: walk the original
positions; a position listed in the valid-index list consumes the next
service result, any other position gets the empty dict `{}`. -/
def mergeResultsBack (n : Nat) (i : Nat) (validIdx : List Nat)
    (metas : List MetaResponse) : List BatchItem :=
  match n with
  | 0 => []
  | n' + 1 =>
    if validIdx.contains i then
      BatchItem.resp (metas.headD {}) ::
        mergeResultsBack n' (i + 1) validIdx metas.tail
    else
      BatchItem.emptyItem :: mergeResultsBack n' (i + 1) validIdx metas

/-- `call_metadata_service_batch` (result list only; the success/failure
counters are bookkeeping): filter out chunks shorter than
`MIN_CHUNK_LENGTH`, answer all-empty when nothing survives, send a single
request for ≤ `METADATA_BATCH_SIZE` surviving chunks and otherwise split
them into batches processed by `asyncio.gather` (which preserves batch
order), then re-insert `{}` at the skipped positions. -/
def call_metadata_service_batch (g : String → Except String MetaResponse)
    (chunks : List String) : List BatchItem :=
  let validChunks := (chunks.enum).filter
    (fun p => MIN_CHUNK_LENGTH ≤ p.2.length)
  if validChunks.isEmpty then
    List.replicate chunks.length BatchItem.emptyItem
  else
    let skippedCount := chunks.length - validChunks.length
    if validChunks.length ≤ METADATA_BATCH_SIZE then
      let results := extract_metadata_batch g (validChunks.map (·.2))
      if 0 < skippedCount then
        mergeResultsBack chunks.length 0 (validChunks.map (·.1)) results
      else results.map BatchItem.resp
    else
      let batches := batchesOf METADATA_BATCH_SIZE validChunks
      let allMetadata := (batches.map
        (fun b => extract_metadata_batch g (b.map (·.2)))).flatten
      if 0 < skippedCount then
        mergeResultsBack chunks.length 0 (validChunks.map (·.1)) allMetadata
      else allMetadata.map BatchItem.resp

/-! ## Concrete inputs used by counterexamples and witnesses -/

/-- Query for the C1 failing input. -/
def c1Query : Str := strOf "smartphone"

/-- C1 failing input: a hit whose only metadata is a `semantic_keywords`
entry exactly matching the query. -/
def c1Chunk : RawHit := { semanticKeywords := strOf "smartphone" }

/-- C2 counterexample request: a caller-supplied negative keyword weight. -/
def c2NegReq : SearchRequestE :=
  { queryText := strOf "apple pie", topK := 10, useMetadataBoost := true,
    boostWeights := some { keywords := some (-1) } }

/-- C2 counterexample hit. -/
def c2NegHit : RawHit := { id := "h1", score := 1/2, keywords := strOf "apple" }

/-- C2 witness request (default weights). -/
def c2WitReq : SearchRequestE := { queryText := strOf "apple" }

/-- C2 witness hit. -/
def c2WitHit : RawHit := { id := "h1", score := 1/2, keywords := strOf "apple" }

/-- C2 witness: the single boosted result for `c2WitReq` over `[c2WitHit]`. -/
def c2WitItem : SearchResultItem :=
  { chunkId := "h1", score := 3/5, vectorScore := 1/2, metadataBoost := 1/10,
    metadataMatches := { keywordsMatched := [strOf "apple"] } }

/-- A concrete parsed LLM classification used by witnesses. -/
def llmEx : LLMData :=
  { intent := "factual_retrieval", confidence := 1/2 }

/-- The C10 witness response: what `/v1/analyze` answers for a
high-confidence pattern result. -/
def c10Resp : AnalyzeResponse :=
  { intent := "comparison", confidence := 19/20, language := "en",
    complexity := "moderate", requiresMath := false, usedPattern := true,
    analysisMethod := "pattern_match" }

/-- C6 counterexample: a 501-character keyword with no separator together
with its own 500-character prefix as a semantic keyword. -/
def c6cex : MetaFields :=
  { keywords := List.replicate 501 'a', semanticKeywords := List.replicate 500 'a' }

/-- C6 witness input: a well-behaved extraction result (all fields within
their caps) with one duplicate semantic keyword, one placeholder keyword and
one invalid relationship triplet. -/
def c6wit : MetaFields :=
  { keywords := strOf "Apple, product name",
    topics := strOf "tech",
    questions := strOf "What is Apple?",
    summary := strOf "About Apple.",
    semanticKeywords := strOf "apple, iPhone",
    entityRelationships := strOf "Apple → makes → iPhone | Bad",
    attributes := strOf "color: black" }

/-- C4/C3 witness match table: one `list_enumeration` match (early, long)
and one `aggregation` match. -/
def c4Tbl : MatchTable :=
  [("list_enumeration", [{ confidence := 9/10, position := 0, length := 35 }]),
   ("aggregation", [{ confidence := 8/10, position := 25, length := 10 }])]

/-- A concrete cache key used by the C7 witness. -/
def kEx : CacheKey :=
  { model := "m", messages := [("user", "hi")], temperature := 0,
    maxTokens := some 10 }

/-- A concrete streaming chat request used by the C7 witness. -/
def reqStreamEx : ChatRequest :=
  { model := "m", messages := [("user", "hi")], temperature := 0,
    maxTokens := some 10, stream := true }

/-- The scored `list_enumeration` entry for `c4Tbl`: base 0.9, penalised by
0.65 (aggregation also matched), boosted by 1.10 (early) and 1.15 (long). -/
def c4ScoreLE : IntentScoreE :=
  { baseScore := 9/10,
    patternMatches := [{ confidence := 9/10, position := 0, length := 35 }],
    finalScore := 29601/40000 }

/-- C9 witness oracle: succeeds on `"0123456789"`, fails on anything else. -/
def c9g : String → Except String MetaResponse := fun t =>
  if t = "0123456789" then
    Except.ok { keywords := "k", topics := "t", questions := "q", summary := "s" }
  else Except.error "boom"

end Spec2Proof

namespace Spec2Proof

/-! # Theorems -/

/-! ## C8: chunker post-filter and determinism -/

/-- `is_valid_chunk` in claim form: kept iff non-empty after trimming, not
solely separator punctuation, and starting with `#` or containing at least
5 alphanumeric characters. -/
theorem is_valid_chunk_iff (c : Str) :
    is_valid_chunk c = true ↔
      (pyStrip c ≠ [] ∧ ¬(∀ x ∈ pyStrip c, x ∈ sepChars) ∧
        ((pyStrip c).headD ' ' = '#' ∨
          5 ≤ ((pyStrip c).filter (fun ch => ch.isAlphanum)).length)) := by
  simp only [is_valid_chunk]
  split_ifs with h1 h2 h3 h4
  · rw [List.isEmpty_iff] at h1
    simp only [Bool.false_eq_true, false_iff]
    rintro ⟨hne, -, -⟩
    exact hne h1
  · simp only [Bool.false_eq_true, false_iff]
    rintro ⟨-, hnall, -⟩
    exact hnall (fun x hx => of_decide_eq_true (List.all_eq_true.mp h2 x hx))
  · simp only [true_iff]
    refine ⟨fun h => h1 (by simp [h]), ?_, Or.inl (beq_iff_eq.mp h3)⟩
    intro hall
    exact h2 (List.all_eq_true.mpr (fun x hx => decide_eq_true (hall x hx)))
  · simp only [true_iff]
    refine ⟨fun h => h1 (by simp [h]), ?_, Or.inr h4⟩
    intro hall
    exact h2 (List.all_eq_true.mpr (fun x hx => decide_eq_true (hall x hx)))
  · simp only [Bool.false_eq_true, false_iff]
    rintro ⟨-, -, h⟩
    rcases h with h | h
    · exact h3 (beq_iff_eq.mpr h)
    · exact h4 h

/-- C8: a chunk survives `perform_chunking` iff the splitter produced it and
it passes the post-filter (non-empty after trimming, not solely the
separator characters `-*_ \t\n`, and either starts with `#` or contains at
least 5 alphanumeric characters); and the chunker is deterministic — the
same text and configuration always yield the same chunk sequence. -/
theorem chunking_postfilter_and_determinism
    (splitter : Str → List Str) (text c : Str) :
    (c ∈ perform_chunking splitter text ↔
      (c ∈ splitter text ∧ pyStrip c ≠ [] ∧ ¬(∀ x ∈ pyStrip c, x ∈ sepChars) ∧
        ((pyStrip c).headD ' ' = '#' ∨
          5 ≤ ((pyStrip c).filter (fun ch => ch.isAlphanum)).length))) ∧
    (∀ text', text = text' →
      perform_chunking splitter text = perform_chunking splitter text') := by
  constructor
  · rw [perform_chunking, List.mem_filter, is_valid_chunk_iff]
  · intro text' h
    rw [h]

/-- Witness for C8 at a concrete splitter and text: the content chunk is
kept, and determinism holds for the concrete input. -/
theorem chunking_postfilter_witness :
    strOf "hello world" ∈
      perform_chunking (fun t => [t, strOf "---"]) (strOf "hello world") := by
  exact (chunking_postfilter_and_determinism (fun t => [t, strOf "---"])
    (strOf "hello world") (strOf "hello world")).1.mpr
    (by refine ⟨by decide, by decide, by decide, Or.inr (by decide)⟩)

/-! ## C1: the three enhanced metadata fields never contribute to the boost -/

/-- C1 (code bug evidence): with metadata boost enabled and the default
registered weights, a hit whose `semantic_keywords` field exactly matches
the query receives a total boost of `0`, although `config.BOOST_WEIGHTS`
registers weight 0.15 for `semantic_keywords`: `apply_metadata_boost` sums
only the keywords/topics/questions/summary contributions. -/
theorem semantic_keywords_contribute_nothing :
    (apply_metadata_boost c1Query c1Chunk configBoostWeights MAX_TOTAL_BOOST).1 = 0 ∧
    configBoostWeights.semanticKeywords = some (15/100) := by
  constructor
  · with_unfolding_all decide
  · rfl

/-! ## C3: confidence bands of the two-tier dispatch -/

/-- C3 counterexample: a Tier-1 score of 0.60 lies in `[0.50, 0.70)`, yet
`analyze_intent` does not verify the pattern intent with the LLM — the
confidence level is `"low"` and the classifier falls through to the full
LLM classification.  Conversely 0.80 (claimed to be used directly) is the
band that is LLM-verified. -/
theorem tier_bands_counterexample :
    tierDispatch (some ("comparison", 3/5)) = TierDecision.fullLLM ∧
    tierDispatch (some ("comparison", 3/5)) ≠
      TierDecision.verify "comparison" (3/5) ∧
    tierDispatch (some ("comparison", 4/5)) = TierDecision.verify "comparison" (4/5) ∧
    tierDispatch (some ("comparison", 4/5)) ≠
      TierDecision.direct "comparison" (4/5) := by
  refine ⟨by with_unfolding_all decide, by with_unfolding_all decide,
    by with_unfolding_all decide, by with_unfolding_all decide⟩

/-- Confidence-level bands of `get_confidence_level`. -/
theorem gcl_high {c : ℚ} (h : 9/10 ≤ c) : get_confidence_level c = "high" := by
  unfold get_confidence_level THRESHOLD_HIGH
  rw [if_pos h]

theorem gcl_medium {c : ℚ} (h1 : 7/10 ≤ c) (h2 : c < 9/10) :
    get_confidence_level c = "medium" := by
  unfold get_confidence_level THRESHOLD_HIGH THRESHOLD_MEDIUM
  rw [if_neg (not_le.mpr h2), if_pos h1]

theorem gcl_low {c : ℚ} (h : c < 7/10) : get_confidence_level c = "low" := by
  unfold get_confidence_level THRESHOLD_HIGH THRESHOLD_MEDIUM
  rw [if_neg (not_le.mpr (h.trans (by norm_num))), if_neg (not_le.mpr h)]

/-- C3 (amended): Tier-1 scores ≥ 0.90 are used directly; scores in
`[0.70, 0.90)` keep the Tier-1 intent but are verified by the Tier-2 LLM;
scores below 0.70 (including the whole band `[0.50, 0.70)`) fall through to
the full Tier-2 classification, as does the absence of a pattern match; and
the matcher itself never reports a score below 0.50 (lower scores return
`None`). -/
theorem tier_dispatch_bands (i : String) (c : ℚ) :
    (tierDispatch none = TierDecision.fullLLM) ∧
    (9/10 ≤ c → tierDispatch (some (i, c)) = TierDecision.direct i c) ∧
    (7/10 ≤ c → c < 9/10 → tierDispatch (some (i, c)) = TierDecision.verify i c) ∧
    (c < 7/10 → tierDispatch (some (i, c)) = TierDecision.fullLLM) ∧
    (∀ (tbl : MatchTable) (j : String) (s : ℚ),
      matchQuery tbl = some (j, s) → 1/2 ≤ s) := by
  refine ⟨rfl, ?_, ?_, ?_, ?_⟩
  · intro h
    simp [tierDispatch, gcl_high h]
  · intro h1 h2
    simp [tierDispatch, gcl_medium h1 h2]
  · intro h
    simp [tierDispatch, gcl_low h]
  · intro tbl j s h
    rw [matchQuery] at h
    by_cases hempty : (find_all_matches tbl).isEmpty
    · simp [hempty] at h
    · simp only [hempty, Bool.false_eq_true, if_false] at h
      split_ifs at h with hlow
      · cases h
        unfold THRESHOLD_LOW at hlow
        exact not_lt.mp hlow

/-- Witness for C3 (amended) at concrete scores: 0.95 is used directly,
0.60 falls through to the full LLM. -/
theorem tier_dispatch_bands_witness :
    tierDispatch (some ("comparison", 19/20)) =
      TierDecision.direct "comparison" (19/20) ∧
    tierDispatch (some ("comparison", 3/5)) = TierDecision.fullLLM := by
  exact ⟨(tier_dispatch_bands "comparison" (19/20)).2.1 (by norm_num),
         (tier_dispatch_bands "comparison" (3/5)).2.2.2.1 (by norm_num)⟩

/-! ## C10: `used_pattern` and `analysis_method` reporting -/

/-- The classification state reports `used_pattern` exactly for the
high-confidence direct pattern path. -/
theorem preClassify_usedPattern (pr : Option (String × ℚ)) (llm : LLMData) :
    (preClassify pr llm).usedPattern = true ↔
      ∃ i c, pr = some (i, c) ∧ 9/10 ≤ c := by
  cases pr with
  | none => simp [preClassify, tierDispatch]
  | some p =>
    rcases p with ⟨i, c⟩
    by_cases h9 : 9/10 ≤ c
    · have hd : tierDispatch (some (i, c)) = TierDecision.direct i c := by
        simp [tierDispatch, gcl_high h9]
      simp only [preClassify, hd]
      exact iff_of_true (by trivial) ⟨i, c, rfl, h9⟩
    · have hnot : ¬ ∃ i' c', some (i, c) = some (i', c') ∧ 9/10 ≤ c' := by
        rintro ⟨i', c', heq, hc'⟩
        cases heq
        exact absurd hc' h9
      by_cases h7 : 7/10 ≤ c
      · have hd : tierDispatch (some (i, c)) = TierDecision.verify i c := by
          simp [tierDispatch, gcl_medium h7 (not_le.mp h9)]
        simp only [preClassify, hd]
        refine iff_of_false ?_ hnot
        by_cases hi : llm.intent = i
        · rw [if_pos hi]
          simp
        · rw [if_neg hi]
          simp
      · have hd : tierDispatch (some (i, c)) = TierDecision.fullLLM := by
          simp [tierDispatch, gcl_low (not_le.mp h7)]
        simp only [preClassify, hd]
        exact iff_of_false (by simp) hnot

/-- C10: in every `/v1/analyze` success response, `used_pattern` is true iff
the Tier-1 pattern score reached the high band (≥ 0.90, used directly); in
every other outcome — including the medium band where the LLM verifies and
even confirms the Tier-1 intent — `used_pattern` is false and
`analysis_method` is reported as `llm_classification`. -/
theorem used_pattern_iff_high_band (pr : Option (String × ℚ)) (llm : LLMData)
    (r : AnalyzeResponse) (logs : List LogEvent)
    (h : analyze_intent pr llm = (Except.ok r, logs)) :
    (r.usedPattern = true ↔ ∃ i c, pr = some (i, c) ∧ 9/10 ≤ c) ∧
    (r.usedPattern = false → r.analysisMethod = "llm_classification") ∧
    (r.usedPattern = true → r.analysisMethod = "pattern_match") := by
  have hused : r.usedPattern = (preClassify pr llm).usedPattern ∧
      r.analysisMethod = (if (preClassify pr llm).usedPattern then "pattern_match"
        else "llm_classification") := by
    simp only [analyze_intent] at h
    split_ifs at h
    · simp at h
    all_goals
      simp only [Prod.mk.injEq, Except.ok.injEq] at h
      refine ⟨by rw [← h.1], ?_⟩
      rw [← h.1]
      split_ifs
      rfl
  refine ⟨?_, ?_, ?_⟩
  · rw [hused.1, preClassify_usedPattern]
  · intro hfalse
    rw [hused.2, if_neg]
    rw [hused.1] at hfalse
    simp [hfalse]
  · intro htrue
    rw [hused.2, if_pos]
    rw [hused.1] at htrue
    simp [htrue]

/-- Witness for C10: for a concrete high-band pattern result the response
has `used_pattern = true` and `analysis_method = "pattern_match"`. -/
theorem used_pattern_witness :
    c10Resp.usedPattern = true ∧ c10Resp.analysisMethod = "pattern_match" := by
  have h : analyze_intent (some ("comparison", 19/20)) llmEx =
      (Except.ok c10Resp, []) := by with_unfolding_all decide
  have hmain := used_pattern_iff_high_band (some ("comparison", 19/20)) llmEx
    c10Resp [] h
  have htrue : c10Resp.usedPattern = true :=
    hmain.1.mpr ⟨"comparison", 19/20, rfl, by norm_num⟩
  exact ⟨htrue, hmain.2.2 htrue⟩

/-! ## C5: confidence-threshold enforcement and logging -/

/-- C5: a final confidence below 0.40 makes `/v1/analyze` fail with an HTTP
400 "please rephrase" error and logs the query as a rejected event (the
`rejected_queries.jsonl` file); a final confidence in `[0.40, 0.60)` keeps
the request successful, coerces the intent to `factual_retrieval`, and logs
the query as a low-confidence event (`low_confidence_queries.jsonl`). -/
theorem confidence_threshold_enforcement (pr : Option (String × ℚ)) (llm : LLMData) :
    ((preClassify pr llm).confidence < 2/5 →
      analyze_intent pr llm =
        (Except.error (400, "Query intent unclear. Please rephrase your question more clearly."),
         [LogEvent.rejected (preClassify pr llm).intent (preClassify pr llm).confidence])) ∧
    (2/5 ≤ (preClassify pr llm).confidence → (preClassify pr llm).confidence < 3/5 →
      ∃ r, analyze_intent pr llm =
        (Except.ok r, [LogEvent.lowConfidence (preClassify pr llm).intent
          (preClassify pr llm).confidence]) ∧
        r.intent = "factual_retrieval" ∧
        r.confidence = (preClassify pr llm).confidence) := by
  constructor
  · intro hrej
    simp only [analyze_intent]
    rw [if_pos (by unfold CONFIDENCE_THRESHOLD_REJECT; exact hrej)]
  · intro hge hlt
    have hnr : ¬ (preClassify pr llm).confidence < CONFIDENCE_THRESHOLD_REJECT := by
      unfold CONFIDENCE_THRESHOLD_REJECT
      exact not_lt.mpr hge
    have hf : (preClassify pr llm).confidence < CONFIDENCE_THRESHOLD_FALLBACK := by
      unfold CONFIDENCE_THRESHOLD_FALLBACK
      exact hlt
    refine ⟨{ intent := "factual_retrieval", confidence := (preClassify pr llm).confidence,
              language := (preClassify pr llm).language, complexity := "moderate",
              requiresMath := (preClassify pr llm).requiresMath,
              usedPattern := (preClassify pr llm).usedPattern,
              analysisMethod := if (preClassify pr llm).usedPattern then "pattern_match"
                else "llm_classification" }, ?_, rfl, rfl⟩
    simp only [analyze_intent, hnr, hf, if_true, if_false]
    simp [SUPPORTED_INTENTS]

/-- Witness for C5 at concrete classifications: confidence 0.20 is rejected
with a rejected-log event; confidence 0.50 succeeds with intent coerced to
`factual_retrieval` and a low-confidence log event. -/
theorem confidence_threshold_witness :
    analyze_intent none { intent := "comparison", confidence := 1/5 } =
      (Except.error (400, "Query intent unclear. Please rephrase your question more clearly."),
       [LogEvent.rejected "comparison" (1/5)]) ∧
    ∃ r, analyze_intent none { intent := "comparison", confidence := 1/2 } =
      (Except.ok r, [LogEvent.lowConfidence "comparison" (1/2)]) ∧
      r.intent = "factual_retrieval" := by
  constructor
  · have h := (confidence_threshold_enforcement none
      { intent := "comparison", confidence := 1/5 }).1
    have hpre : (preClassify none { intent := "comparison", confidence := 1/5 }) =
        { intent := "comparison", confidence := 1/5, language := "en",
          complexity := "moderate", requiresMath := false, usedPattern := false } := rfl
    rw [hpre] at h
    exact h (by norm_num)
  · have h := (confidence_threshold_enforcement none
      { intent := "comparison", confidence := 1/2 }).2
    have hpre : (preClassify none { intent := "comparison", confidence := 1/2 }) =
        { intent := "comparison", confidence := 1/2, language := "en",
          complexity := "moderate", requiresMath := false, usedPattern := false } := rfl
    rw [hpre] at h
    obtain ⟨r, h1, h2, -⟩ := h (by norm_num) (by norm_num)
    exact ⟨r, h1, h2⟩

/-! ## C7: LLM gateway response cache -/

/-- Inserting a key makes it found, with the inserted entry. -/
theorem lookupKey_insertKey_self {α} (st : CacheState α) (k : CacheKey)
    (e : CEntry α) : lookupKey (insertKey st k e) k = some e := by
  induction st with
  | nil => simp [insertKey, lookupKey]
  | cons p rest ih =>
    rcases p with ⟨k', e'⟩
    by_cases h : k' = k
    · simp [insertKey, h, lookupKey]
    · simp [insertKey, h, lookupKey, ih]

/-- Inserting one key does not change lookups of another. -/
theorem lookupKey_insertKey_ne {α} (st : CacheState α) (k k' : CacheKey)
    (e : CEntry α) (h : k ≠ k') :
    lookupKey (insertKey st k e) k' = lookupKey st k' := by
  induction st with
  | nil => simp [insertKey, lookupKey, h]
  | cons p rest ih =>
    rcases p with ⟨k0, e0⟩
    by_cases h0 : k0 = k
    · subst h0
      simp [insertKey, lookupKey, h]
    · simp only [insertKey, if_neg h0, lookupKey]
      by_cases h1 : k0 = k'
      · simp [h1]
      · simp [h1, ih]

/-- A key outside the dictionary is not found. -/
theorem lookupKey_eq_none {α} (st : CacheState α) (k : CacheKey)
    (h : k ∉ st.map Prod.fst) : lookupKey st k = none := by
  induction st with
  | nil => rfl
  | cons p rest ih =>
    rcases p with ⟨k0, e0⟩
    simp only [List.map_cons, List.mem_cons] at h
    push_neg at h
    rw [lookupKey, if_neg (fun he => h.1 he.symm)]
    exact ih h.2

/-- With unique keys, every entry found after an erase was already present
before it. -/
theorem lookupKey_eraseKey {α} (st : CacheState α) (k k' : CacheKey)
    (e : CEntry α) (hnd : (st.map Prod.fst).Nodup)
    (h : lookupKey (eraseKey st k) k' = some e) : lookupKey st k' = some e := by
  induction st with
  | nil => exact h
  | cons p rest ih =>
    rcases p with ⟨k0, e0⟩
    simp only [List.map_cons, List.nodup_cons] at hnd
    by_cases h0 : k0 = k
    · rw [eraseKey, if_pos h0] at h
      rw [lookupKey]
      by_cases h1 : k0 = k'
      · exfalso
        subst h0
        subst h1
        have := lookupKey_eq_none rest k0 hnd.1
        rw [this] at h
        exact Option.noConfusion h
      · rw [if_neg h1]
        exact h
    · rw [eraseKey, if_neg h0] at h
      rw [lookupKey] at h ⊢
      by_cases h1 : k0 = k'
      · rwa [if_pos h1] at h ⊢
      · rw [if_neg h1] at h ⊢
        exact ih hnd.2 h

/-- `ResponseCache.get` never stores anything: with unique keys, every entry
of the post-`get` cache was already present with the same response and
timestamp (only the hit counter may have been bumped). -/
theorem responseCache_get_preserves {α} (st : CacheState α) (ttl : ℚ)
    (k : CacheKey) (now : ℚ) (hnd : (st.map Prod.fst).Nodup)
    (k' : CacheKey) (e' : CEntry α)
    (h : lookupKey (ResponseCache.get st ttl k now).2 k' = some e') :
    ∃ e₀, lookupKey st k' = some e₀ ∧ e'.response = e₀.response ∧
      e'.timestamp = e₀.timestamp := by
  unfold ResponseCache.get at h
  cases hlk : lookupKey st k with
  | none =>
    simp only [hlk] at h
    exact ⟨e', h, rfl, rfl⟩
  | some e =>
    simp only [hlk] at h
    split_ifs at h with hexp
    · exact ⟨e', lookupKey_eraseKey st k k' e' hnd h, rfl, rfl⟩
    · by_cases hk : k = k'
      · subst hk
        rw [lookupKey_insertKey_self] at h
        cases h
        exact ⟨e, hlk, rfl, rfl⟩
      · rw [lookupKey_insertKey_ne st k k' _ hk] at h
        exact ⟨e', h, rfl, rfl⟩

/-- On a provider error the final cache state of `chat_completions` is the
post-`get` state (no `set` call happens). -/
theorem chat_completions_error_state {α} (st : CacheState α) (ttl : ℚ)
    (maxSize : Nat) (req : ChatRequest) (useCache : Bool) (status : Nat)
    (txt : String) (now : ℚ) (hstream : req.stream = false) :
    (chat_completions st ttl maxSize req useCache
        (ProviderOutcome.httpError status txt) now).2 =
      (if useCache then (ResponseCache.get st ttl (requestKey req) now).2
       else st) := by
  unfold chat_completions
  rw [hstream]
  cases useCache with
  | false => simp
  | true =>
    simp only [Bool.not_false, Bool.and_self, if_true, if_pos]
    rcases hget : ResponseCache.get st ttl (requestKey req) now with ⟨res, st2⟩
    cases res with
    | none => simp [hstream]
    | some p => rcases p with ⟨r, age⟩; simp

/-- C7: the gateway's response cache is keyed exactly by
(model, messages, temperature, max_tokens); a `get` after a `set` with the
same key returns the stored response with its age within the TTL, and
misses once the TTL has elapsed; streaming requests neither read nor write
the cache; and provider error responses are never stored. -/
theorem llm_gateway_cache_contract {α : Type} :
    (∀ (req₁ req₂ : ChatRequest), req₁.model = req₂.model →
      req₁.messages = req₂.messages → req₁.temperature = req₂.temperature →
      req₁.maxTokens = req₂.maxTokens → requestKey req₁ = requestKey req₂) ∧
    (∀ (st : CacheState α) (maxSize : Nat) (k : CacheKey) (v : α)
       (tSet tGet ttl : ℚ), tSet ≤ tGet →
      ((tGet - tSet ≤ ttl →
        (ResponseCache.get (ResponseCache.set st maxSize k v tSet) ttl k tGet).1 =
          some (v, tGet - tSet)) ∧
       (ttl < tGet - tSet →
        (ResponseCache.get (ResponseCache.set st maxSize k v tSet) ttl k tGet).1 =
          none))) ∧
    (∀ (st : CacheState α) (ttl : ℚ) (maxSize : Nat) (req : ChatRequest)
       (useCache : Bool) (provider : ProviderOutcome α) (now : ℚ),
      req.stream = true →
      chat_completions st ttl maxSize req useCache provider now =
        (ChatOutcome.streaming, st)) ∧
    (∀ (st : CacheState α) (ttl : ℚ) (maxSize : Nat) (req : ChatRequest)
       (useCache : Bool) (status : Nat) (txt : String) (now : ℚ),
      (st.map Prod.fst).Nodup → req.stream = false →
      ∀ k' e', lookupKey (chat_completions st ttl maxSize req useCache
          (ProviderOutcome.httpError status txt) now).2 k' = some e' →
        ∃ e₀, lookupKey st k' = some e₀ ∧ e'.response = e₀.response ∧
          e'.timestamp = e₀.timestamp) := by
  refine ⟨?_, ?_, ?_, ?_⟩
  · intro req₁ req₂ h1 h2 h3 h4
    simp [requestKey, h1, h2, h3, h4]
  · intro st maxSize k v tSet tGet ttl _hmono
    have hl : lookupKey (ResponseCache.set st maxSize k v tSet) k =
        some { response := v, timestamp := tSet, hits := 0 } := by
      unfold ResponseCache.set
      exact lookupKey_insertKey_self _ _ _
    constructor
    · intro hin
      simp only [ResponseCache.get, hl]
      rw [if_neg (not_lt.mpr hin)]
    · intro hout
      simp only [ResponseCache.get, hl]
      rw [if_pos hout]
  · intro st ttl maxSize req useCache provider now hstream
    unfold chat_completions
    rw [hstream]
    simp
  · intro st ttl maxSize req useCache status txt now hnd hstream k' e' hlk
    rw [chat_completions_error_state st ttl maxSize req useCache status txt now
      hstream] at hlk
    by_cases huc : useCache = true
    · rw [if_pos huc] at hlk
      exact responseCache_get_preserves st ttl (requestKey req) now hnd k' e' hlk
    · rw [if_neg huc] at hlk
      exact ⟨e', hlk, rfl, rfl⟩

/-- Witness for C7 at a concrete cache and request: a set-then-get within
the TTL returns the stored response with its age, after the TTL it misses,
and a streaming request leaves the cache untouched. -/
theorem llm_gateway_cache_witness :
    (ResponseCache.get (ResponseCache.set ([] : CacheState Nat) 1000 kEx 7 0)
        3600 kEx 1).1 = some (7, 1) ∧
    (ResponseCache.get (ResponseCache.set ([] : CacheState Nat) 1000 kEx 7 0)
        3600 kEx 5000).1 = none ∧
    chat_completions ([] : CacheState Nat) 3600 1000 reqStreamEx true
        (ProviderOutcome.success 5) 0 = (ChatOutcome.streaming, []) := by
  refine ⟨?_, ?_, ?_⟩
  · have h := ((llm_gateway_cache_contract (α := Nat)).2.1
      [] 1000 kEx 7 0 1 3600 (by norm_num)).1 (by norm_num)
    simpa using h
  · exact ((llm_gateway_cache_contract (α := Nat)).2.1
      [] 1000 kEx 7 0 5000 3600 (by norm_num)).2 (by norm_num)
  · exact (llm_gateway_cache_contract (α := Nat)).2.2.1
      [] 3600 1000 reqStreamEx true (ProviderOutcome.success 5) 0 rfl

/-! ## C2: score decomposition and boost bounds of the search endpoint -/

/-- A nonnegative keyword weight yields a nonnegative keyword boost. -/
theorem boost_keywords_nonneg (qk : List Str) (ck : Str) (w : ℚ) (hw : 0 ≤ w) :
    0 ≤ (boost_keywords qk ck w).1 := by
  unfold boost_keywords
  split_ifs
  · exact le_refl 0
  · exact mul_nonneg (by positivity) hw

/-- A nonnegative topic weight yields a nonnegative topic boost. -/
theorem boost_topics_nonneg (qk : List Str) (ct : Str) (w : ℚ) (hw : 0 ≤ w) :
    0 ≤ (boost_topics qk ct w).1 := by
  unfold boost_topics
  split_ifs
  · exact le_refl 0
  · exact mul_nonneg (by positivity) hw

/-- A nonnegative question weight yields a nonnegative question boost. -/
theorem boost_questions_nonneg (q : Str) (cq : Str) (w : ℚ) (hw : 0 ≤ w) :
    0 ≤ boost_questions q cq w := by
  simp only [boost_questions]
  split_ifs
  · exact le_refl 0
  · exact hw
  · exact mul_nonneg hw (by norm_num)
  · exact le_refl 0

/-- A nonnegative summary weight yields a nonnegative summary boost. -/
theorem boost_summary_nonneg (qk : List Str) (cs : Str) (w : ℚ) (hw : 0 ≤ w) :
    0 ≤ boost_summary qk cs w := by
  simp only [boost_summary]
  split_ifs
  · exact le_refl 0
  · exact le_refl 0
  · exact hw
  · refine mul_nonneg hw (div_nonneg (div_nonneg ?_ ?_) (by norm_num))
    · positivity
    · positivity
  · exact le_refl 0

/-- With nonnegative effective weights the total metadata boost lies in
`[0, max_boost]`. -/
theorem apply_metadata_boost_bounds (q : Str) (chunk : RawHit)
    (w : BoostWeights) (maxBoost : ℚ) (hmb : 0 ≤ maxBoost)
    (hk : 0 ≤ w.keywords.getD (10/100)) (ht : 0 ≤ w.topics.getD (5/100))
    (hq : 0 ≤ w.questions.getD (8/100)) (hs : 0 ≤ w.summary.getD (7/100)) :
    0 ≤ (apply_metadata_boost q chunk w maxBoost).1 ∧
    (apply_metadata_boost q chunk w maxBoost).1 ≤ maxBoost := by
  simp only [apply_metadata_boost]
  constructor
  · exact le_min
      (add_nonneg (add_nonneg (add_nonneg
        (boost_keywords_nonneg _ _ _ hk)
        (boost_topics_nonneg _ _ _ ht))
        (boost_questions_nonneg _ _ _ hq))
        (boost_summary_nonneg _ _ _ hs))
      hmb
  · exact min_le_right _ _

/-- C2 (amended): for every result the endpoint returns, the final score is
exactly `vector_score + metadata_boost`; with `use_metadata_boost = false`
the boost is zero and the final score is the vector score; and with the
boost enabled the boost lies in `[0, MAX_TOTAL_BOOST]` provided the
effective weights (the request override or the configured defaults) are
nonnegative — as the defaults are.  (A request may supply negative weights,
in which case only the `[0, MAX_TOTAL_BOOST]` range can fail; see the
counterexample.) -/
theorem search_score_invariants (req : SearchRequestE)
    (searchResults : List RawHit) (item : SearchResultItem)
    (hmem : item ∈ search_endpoint_rank req searchResults) :
    (item.score = item.vectorScore + item.metadataBoost) ∧
    (req.useMetadataBoost = false →
      item.metadataBoost = 0 ∧ item.score = item.vectorScore) ∧
    (req.useMetadataBoost = true →
      0 ≤ (effectiveWeights req).keywords.getD (10/100) →
      0 ≤ (effectiveWeights req).topics.getD (5/100) →
      0 ≤ (effectiveWeights req).questions.getD (8/100) →
      0 ≤ (effectiveWeights req).summary.getD (7/100) →
      0 ≤ item.metadataBoost ∧ item.metadataBoost ≤ MAX_TOTAL_BOOST) := by
  unfold search_endpoint_rank at hmem
  have hmem2 := (List.mem_insertionSort _).mp
    ((List.take_sublist _ _).subset hmem)
  obtain ⟨hit, -, heq⟩ := List.mem_map.mp hmem2
  by_cases hub : req.useMetadataBoost = true
  · rw [if_pos hub] at heq
    subst heq
    refine ⟨rfl, fun hfalse => absurd hub (by simp [hfalse]), fun _ hk ht hq hs => ?_⟩
    exact apply_metadata_boost_bounds req.queryText hit (effectiveWeights req)
      MAX_TOTAL_BOOST (by unfold MAX_TOTAL_BOOST; norm_num) hk ht hq hs
  · rw [if_neg hub] at heq
    subst heq
    exact ⟨by simp, fun _ => ⟨rfl, by simp⟩, fun htrue => absurd htrue hub⟩

/-- C2 counterexample: with `use_metadata_boost` enabled and a
caller-supplied negative keyword weight, the single returned result carries
`metadata_boost = -1 < 0`, refuting `0 ≤ boost` as stated for every result
of the endpoint. -/
theorem negative_weight_negative_boost :
    c2NegReq.useMetadataBoost = true ∧
    (search_endpoint_rank c2NegReq [c2NegHit]).map
      (fun it => it.metadataBoost) = [-1] ∧ ((-1 : ℚ) < 0) := by
  refine ⟨rfl, by with_unfolding_all decide, by norm_num⟩

/-- Witness for C2 (amended) at a concrete request with the default
weights: the returned item satisfies the score decomposition and the boost
bounds. -/
theorem search_score_witness :
    c2WitItem.score = c2WitItem.vectorScore + c2WitItem.metadataBoost ∧
    0 ≤ c2WitItem.metadataBoost ∧ c2WitItem.metadataBoost ≤ MAX_TOTAL_BOOST := by
  have hmem : c2WitItem ∈ search_endpoint_rank c2WitReq [c2WitHit] := by
    with_unfolding_all decide
  have h := search_score_invariants c2WitReq [c2WitHit] c2WitItem hmem
  exact ⟨h.1, h.2.2 rfl (by with_unfolding_all decide)
    (by with_unfolding_all decide) (by with_unfolding_all decide)
    (by with_unfolding_all decide)⟩

/-! ## C4: Tier-1 pattern scoring rules -/

/-- Inversion for `find_all_matches` membership: every produced entry comes
from a library intent with a non-empty match list, and both its base and
initial final score are the sum of the matched confidences. -/
theorem mem_find_all_matches {tbl : MatchTable} {i : String} {sd : IntentScoreE}
    (h : (i, sd) ∈ find_all_matches tbl) :
    ∃ ms, (i, ms) ∈ tbl ∧ ms ≠ [] ∧
      sd = { baseScore := (ms.map (fun m => m.confidence)).sum,
             patternMatches := ms,
             finalScore := (ms.map (fun m => m.confidence)).sum } := by
  unfold find_all_matches at h
  obtain ⟨⟨i0, ms⟩, hmem, heq⟩ := List.mem_filterMap.mp h
  by_cases hne : ms.isEmpty
  · simp [hne] at heq
  · rw [if_neg (by simpa using hne)] at heq
    simp only [Option.some.injEq, Prod.mk.injEq] at heq
    exact ⟨ms, by rw [heq.1] at hmem; exact hmem,
      by simpa using hne, heq.2.symm⟩

/-- With positive pattern confidences every matched intent has a positive
(hence non-zero) base score. -/
theorem find_all_matches_base_pos {tbl : MatchTable}
    (hpos : ∀ p ∈ tbl, ∀ m ∈ p.2, 0 < m.confidence)
    {i : String} {sd : IntentScoreE} (h : (i, sd) ∈ find_all_matches tbl) :
    0 < sd.baseScore := by
  obtain ⟨ms, hmem, hne, rfl⟩ := mem_find_all_matches h
  apply List.sum_pos
  · intro x hx
    obtain ⟨m, hm, rfl⟩ := List.mem_map.mp hx
    exact hpos _ hmem _ hm
  · simpa using hne

/-- Under positive confidences, the code's penalty test (competitor present
in the score dictionary) coincides with the claim's (competitor with a
non-zero score). -/
theorem penaltyFactor_eq_claim (tbl : MatchTable)
    (hpos : ∀ p ∈ tbl, ∀ m ∈ p.2, 0 < m.confidence) (intent : String) :
    penaltyFactor ((find_all_matches tbl).map Prod.fst) intent =
      claimPenaltyFactor tbl intent := by
  unfold penaltyFactor claimPenaltyFactor
  cases hfind : INTENT_CONFLICTS.find? (fun r => r.1 = intent) with
  | none => rfl
  | some r =>
    dsimp only
    by_cases hex : ∃ p ∈ find_all_matches tbl, p.1 ∈ r.2.1 ∧ p.2.baseScore ≠ 0
    · rw [if_pos hex]
      obtain ⟨p, hp, hpc, -⟩ := hex
      rcases p with ⟨pi, psd⟩
      rw [if_pos]
      refine List.any_eq_true.mpr ⟨pi, hpc, ?_⟩
      simpa using ⟨psd, hp⟩
    · rw [if_neg hex, if_neg]
      intro hany
      obtain ⟨c, hc, hcont⟩ := List.any_eq_true.mp hany
      have hcmem : c ∈ (find_all_matches tbl).map Prod.fst := by simpa using hcont
      obtain ⟨p, hp, hpeq⟩ := List.mem_map.mp hcmem
      rcases p with ⟨pi, psd⟩
      refine hex ⟨(pi, psd), hp, ?_, ?_⟩
      · rw [hpeq]
        exact hc
      · exact ne_of_gt (find_all_matches_base_pos hpos hp)

/-- Inversion for the penalised/boosted/capped score table: every entry is
the corresponding `find_all_matches` entry with the final score multiplied
by the penalty and boost factors and capped at 1. -/
theorem mem_scored (tbl : MatchTable) (i : String) (sd : IntentScoreE) :
    (i, sd) ∈ normalizeScores (apply_scoring_rules (find_all_matches tbl)) ↔
      ∃ sd0, (i, sd0) ∈ find_all_matches tbl ∧
        sd = { sd0 with
          finalScore := min (sd0.finalScore *
              penaltyFactor ((find_all_matches tbl).map Prod.fst) i *
              boostFactor sd0.patternMatches) 1 } := by
  unfold normalizeScores apply_scoring_rules
  constructor
  · intro h
    obtain ⟨⟨i1, sd1⟩, hmem1, heq1⟩ := List.mem_map.mp h
    obtain ⟨⟨i0, sd0⟩, hmem0, heq0⟩ := List.mem_map.mp hmem1
    simp only [Prod.mk.injEq] at heq0 heq1
    refine ⟨sd0, ?_, ?_⟩
    · rw [heq0.1, heq1.1] at hmem0
      exact hmem0
    · rw [← heq1.2, ← heq0.2, heq0.1, heq1.1]
  · rintro ⟨sd0, hmem, rfl⟩
    refine List.mem_map.mpr ⟨(i, { sd0 with
      finalScore := sd0.finalScore *
        penaltyFactor ((find_all_matches tbl).map Prod.fst) i *
        boostFactor sd0.patternMatches }),
      List.mem_map.mpr ⟨(i, sd0), hmem, rfl⟩, rfl⟩

/-- C4: for every query (every regex match table over the library), assuming
all pattern confidences are positive, every intent's final Tier-1 score is
its base score (the sum of its matched confidences), multiplied by its
conflict penalty exactly when an enumerated specific-intent competitor has
a non-zero score (0.65 / 0.75 / 0.70 for `list_enumeration` /
`factual_retrieval` / `definition_explanation`), multiplied by the
compounding boosts (×1.25 for ≥ 2 patterns, ×1.10 for an earliest match
within the first 20 characters, ×1.15 for a longest match ≥ 30 characters),
capped at 1.0; and the winning intent returned by the matcher attains the
greatest final score. -/
theorem pattern_scoring_rules (tbl : MatchTable)
    (hpos : ∀ p ∈ tbl, ∀ m ∈ p.2, 0 < m.confidence) :
    (∀ i sd,
      (i, sd) ∈ normalizeScores (apply_scoring_rules (find_all_matches tbl)) →
      sd.finalScore =
        min (sd.baseScore * claimPenaltyFactor tbl i *
          boostFactor sd.patternMatches) 1) ∧
    (∀ bi bs, matchQuery tbl = some (bi, bs) →
      (∃ sd, (bi, sd) ∈ normalizeScores (apply_scoring_rules (find_all_matches tbl)) ∧
        sd.finalScore = bs) ∧
      (∀ i sd,
        (i, sd) ∈ normalizeScores (apply_scoring_rules (find_all_matches tbl)) →
        sd.finalScore ≤ bs)) := by
  constructor
  · intro i sd hmem
    obtain ⟨sd0, hmem0, rfl⟩ := (mem_scored tbl i sd).mp hmem
    obtain ⟨ms, -, -, rfl⟩ := mem_find_all_matches hmem0
    rw [penaltyFactor_eq_claim tbl hpos i]
  · intro bi bs h
    rw [matchQuery] at h
    by_cases hempty : (find_all_matches tbl).isEmpty
    · simp [hempty] at h
    · simp only [hempty, Bool.false_eq_true, if_false] at h
      split_ifs at h with hlow
      have hSne : sortScoresDesc (normalizeScores (apply_scoring_rules
          (find_all_matches tbl))) ≠ [] := by
        intro hnil
        have hperm := (normalizeScores (apply_scoring_rules
          (find_all_matches tbl))).perm_insertionSort
          (fun a b => b.2.finalScore ≤ a.2.finalScore)
        rw [sortScoresDesc] at hnil
        rw [hnil] at hperm
        have hLnil : normalizeScores (apply_scoring_rules (find_all_matches tbl)) = [] :=
          hperm.symm.eq_nil
        have htbl : find_all_matches tbl = [] := by
          unfold normalizeScores apply_scoring_rules at hLnil
          simpa using hLnil
        rw [List.isEmpty_iff] at hempty
        exact hempty htbl
      rcases hS : sortScoresDesc (normalizeScores (apply_scoring_rules
          (find_all_matches tbl))) with - | ⟨x, t⟩
      · exact absurd hS hSne
      rw [hS] at h
      simp only [List.headD_cons] at h
      cases h
      have hxmem : x ∈ normalizeScores (apply_scoring_rules (find_all_matches tbl)) := by
        have hx : x ∈ sortScoresDesc (normalizeScores (apply_scoring_rules
            (find_all_matches tbl))) := by
          rw [hS]
          exact List.mem_cons_self x t
        rw [sortScoresDesc] at hx
        exact (List.mem_insertionSort _).mp hx
      have hsorted : (x :: t).Sorted (fun a b => b.2.finalScore ≤ a.2.finalScore) := by
        rw [← hS, sortScoresDesc]
        exact List.sorted_insertionSort _ _
      constructor
      · exact ⟨x.2, by simpa using hxmem, rfl⟩
      · intro i sd hmem
        have hmemS : (i, sd) ∈ x :: t := by
          rw [← hS, sortScoresDesc]
          exact (List.mem_insertionSort _).mpr hmem
        rcases List.mem_cons.mp hmemS with heq | hmemT
        · rw [← heq]
        · exact (List.pairwise_cons.mp hsorted).1 _ hmemT

/-- Witness for C4 at the concrete match table `c4Tbl`: the generic
`list_enumeration` match (base 0.9) is penalised by 0.65 because
`aggregation` also scored, boosted by 1.10 and 1.15, giving 0.740025, so
the winner is `aggregation` at 0.80, and the scoring formula holds for the
penalised entry. -/
theorem pattern_scoring_witness :
    matchQuery c4Tbl = some ("aggregation", 4/5) ∧
    ("list_enumeration", c4ScoreLE) ∈
      normalizeScores (apply_scoring_rules (find_all_matches c4Tbl)) ∧
    c4ScoreLE.finalScore = min (c4ScoreLE.baseScore *
      claimPenaltyFactor c4Tbl "list_enumeration" *
      boostFactor c4ScoreLE.patternMatches) 1 ∧
    c4ScoreLE.finalScore ≤ 4/5 := by
  have hpos : ∀ p ∈ c4Tbl, ∀ m ∈ p.2, 0 < m.confidence := by
    norm_num [c4Tbl, List.forall_mem_cons]
  have hthm := pattern_scoring_rules c4Tbl hpos
  have hscored : normalizeScores (apply_scoring_rules (find_all_matches c4Tbl)) =
      [("list_enumeration", c4ScoreLE),
       ("aggregation",
        { baseScore := 8/10,
          patternMatches := [{ confidence := 8/10, position := 25, length := 10 }],
          finalScore := 4/5 })] := by
    norm_num +decide [c4Tbl, find_all_matches, apply_scoring_rules,
      normalizeScores, penaltyFactor, boostFactor, earliestPosition,
      longestMatch, INTENT_CONFLICTS, c4ScoreLE, min_def, List.filterMap_cons,
      List.filterMap_nil, List.map_cons, List.map_nil, List.sum_cons,
      List.sum_nil, List.find?_cons, List.find?_nil]
  have hq : matchQuery c4Tbl = some ("aggregation", 4/5) := by
    simp only [matchQuery]
    rw [hscored]
    norm_num +decide [c4Tbl, find_all_matches, sortScoresDesc,
      List.insertionSort, List.orderedInsert, c4ScoreLE, THRESHOLD_LOW,
      List.filterMap_cons, List.filterMap_nil, List.sum_cons, List.sum_nil]
  have hmem : ("list_enumeration", c4ScoreLE) ∈
      normalizeScores (apply_scoring_rules (find_all_matches c4Tbl)) := by
    rw [hscored]; exact List.mem_cons_self _ _
  exact ⟨hq, hmem, hthm.1 _ _ hmem, (hthm.2 _ _ hq).2 _ _ hmem⟩

/-! ## C9: batch metadata partitioning and alignment -/

/-- Every index produced by `enumFrom n` is at least `n`. -/
theorem enumFrom_fst_le {α : Type} :
    ∀ (l : List α) (n : Nat) (p : Nat × α), p ∈ List.enumFrom n l → n ≤ p.1 := by
  intro l
  induction l with
  | nil => intro n p hp; simp [List.enumFrom] at hp
  | cons x xs ih =>
    intro n p hp
    rw [List.enumFrom] at hp
    rcases List.mem_cons.mp hp with heq | hmem
    · rw [heq]
    · exact Nat.le_of_succ_le (ih (n + 1) p hmem)

/-- With enough fuel, the batches concatenate back to the original list. -/
theorem batchesOfAux_flatten {α : Type} (k : Nat) (hk : 1 ≤ k) :
    ∀ (fuel : Nat) (l : List α), l.length ≤ fuel →
      (batchesOfAux k fuel l).flatten = l := by
  intro fuel
  induction fuel with
  | zero =>
    intro l hl
    rw [List.length_eq_zero.mp (Nat.le_zero.mp hl)]
    rfl
  | succ fuel ih =>
    intro l hl
    match l with
    | [] => rfl
    | x :: xs =>
      rw [batchesOfAux, List.flatten_cons,
        ih ((x :: xs).drop k) (by
          rw [List.length_drop]
          simp only [List.length_cons] at hl ⊢
          omega),
        List.take_append_drop]

/-- The batches of `batchesOf` concatenate back to the original list. -/
theorem batchesOf_flatten {α : Type} (k : Nat) (hk : 1 ≤ k) (l : List α) :
    (batchesOf k l).flatten = l :=
  batchesOfAux_flatten k hk l.length l (Nat.le_refl _)

/-- Every batch produced by `batchesOfAux` has length at most `k`. -/
theorem batchesOfAux_mem_length_le {α : Type} (k : Nat) :
    ∀ (fuel : Nat) (l : List α) (b : List α),
      b ∈ batchesOfAux k fuel l → b.length ≤ k := by
  intro fuel
  induction fuel with
  | zero => intro l b hb; simp [batchesOfAux] at hb
  | succ fuel ih =>
    intro l b hb
    match l with
    | [] => simp [batchesOfAux] at hb
    | x :: xs =>
      rw [batchesOfAux] at hb
      rcases List.mem_cons.mp hb with heq | hmem
      · rw [heq]; exact (List.length_take _ _).le.trans (min_le_left _ _)
      · exact ih _ _ hmem

/-- The re-insertion loop reproduces the per-position semantics: walking the
chunk list from position `i`, with the valid-index list split as junk `P`
(all below `i`) plus the filtered enumeration of the remaining chunks, the
merge emits the empty dict for short chunks and the next service result for
the others, in the original order. -/
theorem mergeResultsBack_enumFrom (g : String → Except String MetaResponse) :
    ∀ (cs : List String) (i : Nat) (P : List Nat), (∀ x ∈ P, x < i) →
      mergeResultsBack cs.length i
        (P ++ ((List.enumFrom i cs).filter
          (fun p => MIN_CHUNK_LENGTH ≤ p.2.length)).map (·.1))
        (((List.enumFrom i cs).filter
          (fun p => MIN_CHUNK_LENGTH ≤ p.2.length)).map
            (fun p => extractOutcome g p.2))
      = cs.map (fun t =>
          if t.length < MIN_CHUNK_LENGTH then BatchItem.emptyItem
          else BatchItem.resp (extractOutcome g t)) := by
  intro cs
  induction cs with
  | nil => intro i P hP; rfl
  | cons c cs ih =>
    intro i P hP
    rw [List.enumFrom]
    by_cases hc : MIN_CHUNK_LENGTH ≤ c.length
    · rw [List.filter_cons_of_pos (by simpa using hc), List.map_cons,
        List.map_cons, List.length_cons, mergeResultsBack]
      rw [if_pos (by
        refine List.elem_iff.mpr ?_
        exact List.mem_append.mpr (Or.inr (List.mem_cons_self _ _)))]
      rw [List.headD_cons, List.tail_cons]
      have hre : P ++ i :: ((List.enumFrom (i + 1) cs).filter
          (fun p => MIN_CHUNK_LENGTH ≤ p.2.length)).map (·.1) =
          (P ++ [i]) ++ ((List.enumFrom (i + 1) cs).filter
            (fun p => MIN_CHUNK_LENGTH ≤ p.2.length)).map (·.1) := by
        simp
      rw [hre, ih (i + 1) (P ++ [i]) (by
        intro x hx
        rcases List.mem_append.mp hx with hxP | hxi
        · exact Nat.lt_succ_of_lt (hP x hxP)
        · rw [List.mem_singleton.mp hxi]; exact Nat.lt_succ_self i)]
      rw [List.map_cons, if_neg (by omega)]
    · rw [List.filter_cons_of_neg (by simpa using hc), List.length_cons,
        mergeResultsBack]
      rw [if_neg (by
        intro hcontains
        rcases List.mem_append.mp (List.elem_iff.mp hcontains) with hiP | hiV
        · exact absurd (hP i hiP) (Nat.lt_irrefl i)
        · rcases List.mem_map.mp hiV with ⟨p, hpmem, hpfst⟩
          have hge := enumFrom_fst_le cs (i + 1) p (List.mem_of_mem_filter hpmem)
          rw [hpfst] at hge
          exact absurd hge (by omega))]
      rw [ih (i + 1) P (fun x hx => Nat.lt_succ_of_lt (hP x hx))]
      rw [List.map_cons, if_pos (by omega)]

/-- C9: the batch metadata operation over `N` chunks drops exactly the
chunks shorter than `MIN_CHUNK_LENGTH` (their positions receive the empty
dict), gives every other position the single-chunk outcome for its own
chunk in the original order (so the output has length `N`), and partitions
the surviving chunks into batches of at most `METADATA_BATCH_SIZE`. -/
theorem batch_metadata_alignment (g : String → Except String MetaResponse)
    (chunks : List String) :
    call_metadata_service_batch g chunks =
      chunks.map (fun t =>
        if t.length < MIN_CHUNK_LENGTH then BatchItem.emptyItem
        else BatchItem.resp (extractOutcome g t)) ∧
    (call_metadata_service_batch g chunks).length = chunks.length ∧
    ∀ b ∈ batchesOf METADATA_BATCH_SIZE
        ((chunks.enum).filter (fun p => MIN_CHUNK_LENGTH ≤ p.2.length)),
      b.length ≤ METADATA_BATCH_SIZE := by
  have hmerge : mergeResultsBack chunks.length 0
      (((chunks.enum).filter (fun p => MIN_CHUNK_LENGTH ≤ p.2.length)).map (·.1))
      (((chunks.enum).filter (fun p => MIN_CHUNK_LENGTH ≤ p.2.length)).map
        (fun p => extractOutcome g p.2)) =
      chunks.map (fun t =>
        if t.length < MIN_CHUNK_LENGTH then BatchItem.emptyItem
        else BatchItem.resp (extractOutcome g t)) := by
    have h := mergeResultsBack_enumFrom g chunks 0 [] (by intro x hx; simp at hx)
    rw [List.nil_append] at h
    exact h
  have hnoskip : chunks.length ≤
        ((chunks.enum).filter (fun p => MIN_CHUNK_LENGTH ≤ p.2.length)).length →
      (((chunks.enum).filter (fun p => MIN_CHUNK_LENGTH ≤ p.2.length)).map
        (fun p => extractOutcome g p.2)).map BatchItem.resp =
      chunks.map (fun t =>
        if t.length < MIN_CHUNK_LENGTH then BatchItem.emptyItem
        else BatchItem.resp (extractOutcome g t)) := by
    intro hle
    have hlen : ((chunks.enum).filter
        (fun p => MIN_CHUNK_LENGTH ≤ p.2.length)).length = chunks.enum.length := by
      have h1 := List.length_filter_le
        (fun p => decide (MIN_CHUNK_LENGTH ≤ p.2.length)) chunks.enum
      rw [List.enum_length] at *
      omega
    have heq : (chunks.enum).filter (fun p => MIN_CHUNK_LENGTH ≤ p.2.length) =
        chunks.enum :=
      (List.filter_sublist _).eq_of_length hlen
    rw [heq, List.map_map]
    have hall : ∀ p ∈ chunks.enum, MIN_CHUNK_LENGTH ≤ p.2.length := by
      intro p hp
      have := List.filter_eq_self.mp heq p hp
      simpa using this
    calc chunks.enum.map (BatchItem.resp ∘ fun p => extractOutcome g p.2)
        = chunks.enum.map ((fun t =>
            if t.length < MIN_CHUNK_LENGTH then BatchItem.emptyItem
            else BatchItem.resp (extractOutcome g t)) ∘ Prod.snd) := by
          refine List.map_congr_left ?_
          intro p hp
          have := hall p hp
          simp only [Function.comp_apply]
          rw [if_neg (by omega)]
      _ = (chunks.enum.map Prod.snd).map (fun t =>
            if t.length < MIN_CHUNK_LENGTH then BatchItem.emptyItem
            else BatchItem.resp (extractOutcome g t)) := by
          rw [List.map_map]
      _ = chunks.map (fun t =>
            if t.length < MIN_CHUNK_LENGTH then BatchItem.emptyItem
            else BatchItem.resp (extractOutcome g t)) := by
          rw [List.enum_map_snd]
  have hmain : call_metadata_service_batch g chunks =
      chunks.map (fun t =>
        if t.length < MIN_CHUNK_LENGTH then BatchItem.emptyItem
        else BatchItem.resp (extractOutcome g t)) := by
    simp only [call_metadata_service_batch, extract_metadata_batch]
    split_ifs with hempty hsize hskip hskip2
    · have hnil : (chunks.enum).filter
          (fun p => MIN_CHUNK_LENGTH ≤ p.2.length) = [] :=
        List.isEmpty_iff.mp hempty
      have hshort : ∀ p ∈ chunks.enum, ¬ MIN_CHUNK_LENGTH ≤ p.2.length := by
        intro p hp
        have := List.filter_eq_nil_iff.mp hnil p hp
        simpa using this
      symm
      calc chunks.map (fun t =>
            if t.length < MIN_CHUNK_LENGTH then BatchItem.emptyItem
            else BatchItem.resp (extractOutcome g t))
          = (chunks.enum.map Prod.snd).map (fun t =>
              if t.length < MIN_CHUNK_LENGTH then BatchItem.emptyItem
              else BatchItem.resp (extractOutcome g t)) := by
            rw [List.enum_map_snd]
        _ = chunks.enum.map ((fun t =>
              if t.length < MIN_CHUNK_LENGTH then BatchItem.emptyItem
              else BatchItem.resp (extractOutcome g t)) ∘ Prod.snd) := by
            rw [List.map_map]
        _ = List.replicate chunks.length BatchItem.emptyItem := by
            refine List.eq_replicate_iff.mpr ⟨?_, ?_⟩
            · rw [List.length_map, List.enum_length]
            · intro b hb
              rcases List.mem_map.mp hb with ⟨p, hp, hval⟩
              have := hshort p hp
              rw [← hval]
              simp only [Function.comp_apply]
              rw [if_pos (by omega)]
    · rw [List.map_map]
      simp only [Function.comp_def]
      exact hmerge
    · have h := hnoskip (by omega)
      simp only [List.map_map, Function.comp_def] at h ⊢
      exact h
    · have hflat : ((batchesOf METADATA_BATCH_SIZE
          ((chunks.enum).filter (fun p => MIN_CHUNK_LENGTH ≤ p.2.length))).map
            (fun b => (b.map (·.2)).map (extractOutcome g))).flatten =
          ((chunks.enum).filter (fun p => MIN_CHUNK_LENGTH ≤ p.2.length)).map
            (fun p => extractOutcome g p.2) := by
        calc ((batchesOf METADATA_BATCH_SIZE
            ((chunks.enum).filter (fun p => MIN_CHUNK_LENGTH ≤ p.2.length))).map
              (fun b => (b.map (·.2)).map (extractOutcome g))).flatten
            = ((batchesOf METADATA_BATCH_SIZE
              ((chunks.enum).filter (fun p => MIN_CHUNK_LENGTH ≤ p.2.length))).map
                (List.map (fun p => extractOutcome g p.2))).flatten := by
              refine congrArg List.flatten (List.map_congr_left ?_)
              intro b _
              rw [List.map_map]
              rfl
          _ = ((batchesOf METADATA_BATCH_SIZE
              ((chunks.enum).filter
                (fun p => MIN_CHUNK_LENGTH ≤ p.2.length))).flatten).map
                (fun p => extractOutcome g p.2) := by
              rw [List.map_flatten]
          _ = ((chunks.enum).filter (fun p => MIN_CHUNK_LENGTH ≤ p.2.length)).map
                (fun p => extractOutcome g p.2) := by
              rw [batchesOf_flatten METADATA_BATCH_SIZE (by decide)]
      rw [hflat]
      exact hmerge
    · have hflat : ((batchesOf METADATA_BATCH_SIZE
          ((chunks.enum).filter (fun p => MIN_CHUNK_LENGTH ≤ p.2.length))).map
            (fun b => (b.map (·.2)).map (extractOutcome g))).flatten =
          ((chunks.enum).filter (fun p => MIN_CHUNK_LENGTH ≤ p.2.length)).map
            (fun p => extractOutcome g p.2) := by
        calc ((batchesOf METADATA_BATCH_SIZE
            ((chunks.enum).filter (fun p => MIN_CHUNK_LENGTH ≤ p.2.length))).map
              (fun b => (b.map (·.2)).map (extractOutcome g))).flatten
            = ((batchesOf METADATA_BATCH_SIZE
              ((chunks.enum).filter (fun p => MIN_CHUNK_LENGTH ≤ p.2.length))).map
                (List.map (fun p => extractOutcome g p.2))).flatten := by
              refine congrArg List.flatten (List.map_congr_left ?_)
              intro b _
              rw [List.map_map]
              rfl
          _ = ((batchesOf METADATA_BATCH_SIZE
              ((chunks.enum).filter
                (fun p => MIN_CHUNK_LENGTH ≤ p.2.length))).flatten).map
                (fun p => extractOutcome g p.2) := by
              rw [List.map_flatten]
          _ = ((chunks.enum).filter (fun p => MIN_CHUNK_LENGTH ≤ p.2.length)).map
                (fun p => extractOutcome g p.2) := by
              rw [batchesOf_flatten METADATA_BATCH_SIZE (by decide)]
      rw [hflat]
      have h := hnoskip (by omega)
      simp only [List.map_map, Function.comp_def] at h ⊢
      exact h
  refine ⟨hmain, ?_, ?_⟩
  · rw [hmain, List.length_map]
  · intro b hb
    exact batchesOfAux_mem_length_le METADATA_BATCH_SIZE _ _ b hb

/-- Witness for C9 on a concrete pair of chunks: the ten-character chunk is
extracted by the oracle and the four-character chunk's position receives the
empty dict. -/
theorem batch_metadata_witness :
    call_metadata_service_batch c9g ["0123456789", "shrt"] =
      [BatchItem.resp
        { keywords := "k", topics := "t", questions := "q", summary := "s" },
       BatchItem.emptyItem] := by
  have h := (batch_metadata_alignment c9g ["0123456789", "shrt"]).1
  rw [h]
  rfl

/-! ## C6: metadata post-processing invariants -/

/-- `splitOnChar` never returns the empty list. -/
theorem splitOnChar_ne_nil (sep : Char) (s : Str) : splitOnChar sep s ≠ [] := by
  induction s with
  | nil => simp [splitOnChar]
  | cons c cs ih =>
    rw [splitOnChar]
    by_cases h : c = sep
    · rw [if_pos h]; simp
    · rw [if_neg h]
      rcases hs : splitOnChar sep cs with - | ⟨h1, t1⟩
      · simp
      · simp

/-- The pieces of `splitOnChar` are separator-free. -/
theorem splitOnChar_sep_free (sep : Char) (s : Str) :
    ∀ x ∈ splitOnChar sep s, sep ∉ x := by
  induction s with
  | nil =>
    intro x hx
    rw [splitOnChar] at hx
    rw [List.mem_singleton.mp hx]
    simp
  | cons c cs ih =>
    intro x hx
    rw [splitOnChar] at hx
    by_cases h : c = sep
    · rw [if_pos h] at hx
      rcases List.mem_cons.mp hx with rfl | hmem
      · simp
      · exact ih x hmem
    · rw [if_neg h] at hx
      rcases hs : splitOnChar sep cs with - | ⟨h1, t1⟩
      · exact absurd hs (splitOnChar_ne_nil sep cs)
      · rw [hs] at hx
        rcases List.mem_cons.mp hx with rfl | hmem
        · intro hc
          rcases List.mem_cons.mp hc with hceq | hmem2
          · exact h hceq.symm
          · exact ih h1 (by rw [hs]; exact List.mem_cons_self _ _) hmem2
        · exact ih x (by rw [hs]; exact List.mem_cons.mpr (Or.inr hmem))

/-- Splitting at an explicit separator occurrence. -/
theorem splitOnChar_append_sep (sep : Char) (x r : Str) (hx : sep ∉ x) :
    splitOnChar sep (x ++ sep :: r) = x :: splitOnChar sep r := by
  induction x with
  | nil => rw [List.nil_append, splitOnChar, if_pos rfl]
  | cons c x' ih =>
    have hc : ¬ c = sep := fun he => hx (List.mem_cons.mpr (Or.inl he.symm))
    rw [List.cons_append, splitOnChar, if_neg hc,
      ih (fun hmem => hx (List.mem_cons.mpr (Or.inr hmem)))]

/-- A separator-free string splits into a single piece. -/
theorem splitOnChar_of_not_mem (sep : Char) (s : Str) (h : sep ∉ s) :
    splitOnChar sep s = [s] := by
  induction s with
  | nil => rfl
  | cons c cs ih =>
    have hc : ¬ c = sep := fun he => h (List.mem_cons.mpr (Or.inl he.symm))
    rw [splitOnChar, if_neg hc, ih (fun hm => h (List.mem_cons.mpr (Or.inr hm)))]

/-- Stripping ignores a leading space. -/
theorem pyStrip_space_cons (s : Str) : pyStrip (' ' :: s) = pyStrip s := by
  rw [pyStrip, pyStrip, List.dropWhile_cons_of_pos (by decide)]

/-- Dropping an already-dropped prefix is a no-op. -/
theorem dropWhile_twice {α : Type} (p : α → Bool) (l : List α) :
    (l.dropWhile p).dropWhile p = l.dropWhile p := by
  induction l with
  | nil => rfl
  | cons x xs ih =>
    by_cases h : p x = true
    · rw [List.dropWhile_cons_of_pos h, ih]
    · rw [List.dropWhile_cons_of_neg (by simpa using h),
        List.dropWhile_cons_of_neg (by simpa using h)]

/-- Stripping ignores a trailing space. -/
theorem pyStrip_append_space (s : Str) : pyStrip (s ++ [' ']) = pyStrip s := by
  rw [pyStrip, pyStrip, List.dropWhile_append]
  by_cases h : (s.dropWhile isPySpace).isEmpty
  · rw [if_pos h, List.isEmpty_iff.mp h]
    rw [show List.dropWhile isPySpace [' '] = [] from by decide]
  · rw [if_neg h, List.reverse_append]
    rw [show List.reverse [' '] = [' '] from rfl, List.singleton_append,
      List.dropWhile_cons_of_pos (by decide)]

/-- `dropWhile` fixes every prefix of a list it already fixes. -/
theorem dropWhile_prefix_fix {α : Type} (p : α → Bool) (A B : List α)
    (hfix : A.dropWhile p = A) (hpre : B <+: A) : B.dropWhile p = B := by
  cases B with
  | nil => rfl
  | cons b B' =>
    rcases hpre with ⟨t, ht⟩
    have hb : ¬ p b = true := by
      intro hb
      rw [← ht, List.cons_append, List.dropWhile_cons_of_pos hb] at hfix
      have hlen := congrArg List.length hfix
      have hle := ((B' ++ t).dropWhile_sublist p).length_le
      rw [List.length_cons] at hlen
      omega
    exact List.dropWhile_cons_of_neg hb

/-- `pyStrip` is idempotent. -/
theorem pyStrip_idem (s : Str) : pyStrip (pyStrip s) = pyStrip s := by
  have hAfix : (s.dropWhile isPySpace).dropWhile isPySpace =
      s.dropWhile isPySpace := dropWhile_twice _ _
  have hBpre : pyStrip s <+: s.dropWhile isPySpace := by
    rw [pyStrip]
    have hsub : (s.dropWhile isPySpace).reverse.dropWhile isPySpace <:+
        (s.dropWhile isPySpace).reverse := List.dropWhile_suffix _
    have := List.reverse_prefix.mpr hsub
    simpa using this
  have hBfix : (pyStrip s).dropWhile isPySpace = pyStrip s :=
    dropWhile_prefix_fix _ _ _ hAfix hBpre
  have hBrev : (pyStrip s).reverse =
      (s.dropWhile isPySpace).reverse.dropWhile isPySpace := by
    rw [pyStrip, List.reverse_reverse]
  have hBrevfix : (pyStrip s).reverse.dropWhile isPySpace = (pyStrip s).reverse := by
    rw [hBrev]; exact dropWhile_twice _ _
  calc pyStrip (pyStrip s)
      = ((pyStrip s).reverse.dropWhile isPySpace).reverse := by
        rw [pyStrip, hBfix]
    _ = pyStrip s := by rw [hBrevfix, List.reverse_reverse]

/-- Stripping never lengthens a string. -/
theorem pyStrip_length_le (s : Str) : (pyStrip s).length ≤ s.length := by
  rw [pyStrip, List.length_reverse]
  calc ((s.dropWhile isPySpace).reverse.dropWhile isPySpace).length
      ≤ (s.dropWhile isPySpace).reverse.length :=
        ((s.dropWhile isPySpace).reverse.dropWhile_sublist isPySpace).length_le
    _ = (s.dropWhile isPySpace).length := List.length_reverse _
    _ ≤ s.length := (s.dropWhile_sublist isPySpace).length_le

/-- Stripping introduces no new characters. -/
theorem mem_pyStrip (c : Char) (s : Str) (h : c ∈ pyStrip s) : c ∈ s := by
  rw [pyStrip, List.mem_reverse] at h
  have h1 := ((s.dropWhile isPySpace).reverse.dropWhile_sublist isPySpace).subset h
  rw [List.mem_reverse] at h1
  exact (s.dropWhile_sublist isPySpace).subset h1

/-- Mapping `pyStrip` over the pieces absorbs a leading space. -/
theorem map_pyStrip_split_space (sep : Char) (hsep : ¬ sep = ' ') (s : Str) :
    (splitOnChar sep (' ' :: s)).map pyStrip = (splitOnChar sep s).map pyStrip := by
  rw [splitOnChar, if_neg (fun h => hsep h.symm)]
  rcases hs : splitOnChar sep s with - | ⟨h1, t1⟩
  · exact absurd hs (splitOnChar_ne_nil sep s)
  · dsimp only
    rw [List.map_cons, List.map_cons, pyStrip_space_cons]

/-- A field under its limit is not touched by `truncateField`. -/
theorem truncateField_of_le (limit : Nat) (s : Str) (h : s.length ≤ limit) :
    truncateField limit s = s := by
  rw [truncateField, if_neg]
  intro hcond
  rw [Bool.and_eq_true] at hcond
  have := of_decide_eq_true hcond.2
  omega

/-- The result of `truncateField` never exceeds the limit. -/
theorem truncateField_length_le (limit : Nat) (s : Str) :
    (truncateField limit s).length ≤ limit := by
  simp only [truncateField]
  split_ifs with h
  · rcases hidx : lastSepIdx (s.take limit) with - | i
    · dsimp only
      exact le_trans (pyStrip_length_le _)
        (by simpa using List.length_take_le limit s)
    · dsimp only
      split_ifs with hi
      · exact le_trans (pyStrip_length_le _)
          (le_trans ((List.take_sublist _ _).length_le)
            (by simpa using List.length_take_le limit s))
      · exact le_trans (pyStrip_length_le _)
          (by simpa using List.length_take_le limit s)
  · by_cases he : s.isEmpty
    · rw [List.isEmpty_iff.mp he]
      simp
    · have hne : (!s.isEmpty) = true := by simp [he]
      have : ¬ limit < s.length := by
        intro hlt
        exact h (by rw [Bool.and_eq_true]; exact ⟨hne, decide_eq_true hlt⟩)
      omega

/-- The pieces of a split, after stripping, are strip-fixed and
separator-free. -/
theorem split_strip_spec (sep : Char) (s : Str) :
    ∀ x ∈ (splitOnChar sep s).map pyStrip, pyStrip x = x ∧ sep ∉ x := by
  intro x hx
  rcases List.mem_map.mp hx with ⟨y, hy, hxy⟩
  constructor
  · rw [← hxy]; exact pyStrip_idem y
  · intro hc
    exact splitOnChar_sep_free sep s y hy (mem_pyStrip sep y (hxy ▸ hc))

/-- The comma items of any field are non-empty, strip-fixed and comma-free. -/
theorem commaItems_spec (s : Str) :
    ∀ x ∈ commaItems s, pyStrip x = x ∧ x ≠ [] ∧ ',' ∉ x := by
  intro x hx
  rw [commaItems] at hx
  have hx1 := List.mem_of_mem_filter hx
  have hxne := List.of_mem_filter hx
  obtain ⟨hstr, hcomma⟩ := split_strip_spec ',' s x hx1
  refine ⟨hstr, ?_, hcomma⟩
  intro hnil
  rw [hnil] at hxne
  exact absurd hxne (by decide)

/-- Splitting a `", "`-join of well-formed items recovers the items. -/
theorem commaItems_join : ∀ (L : List Str),
    (∀ x ∈ L, pyStrip x = x ∧ x ≠ [] ∧ ',' ∉ x) →
    commaItems (joinWith (strOf ", ") L) = L := by
  intro L
  induction L with
  | nil => intro _; rfl
  | cons x L' ih =>
    intro h
    obtain ⟨hstr, hne, hcomma⟩ := h x (List.mem_cons_self _ _)
    have hrest := fun z hz => h z (List.mem_cons.mpr (Or.inr hz))
    cases L' with
    | nil =>
      rw [show joinWith (strOf ", ") [x] = x from rfl, commaItems,
        splitOnChar_of_not_mem ',' x hcomma, List.map_cons, List.map_nil, hstr]
      rw [List.filter_cons_of_pos (by
        simpa using fun hc => hne (List.isEmpty_iff.mp hc))]
      rfl
    | cons y L'' =>
      rw [show joinWith (strOf ", ") (x :: y :: L'') =
        x ++ strOf ", " ++ joinWith (strOf ", ") (y :: L'') from rfl]
      rw [show x ++ strOf ", " ++ joinWith (strOf ", ") (y :: L'') =
        x ++ ',' :: (' ' :: joinWith (strOf ", ") (y :: L'')) from by simp [strOf]]
      rw [commaItems, splitOnChar_append_sep ',' x _ hcomma, List.map_cons,
        map_pyStrip_split_space ',' (by decide) _, hstr]
      rw [List.filter_cons_of_pos (by
        simpa using fun hc => hne (List.isEmpty_iff.mp hc))]
      have hI := ih hrest
      rw [commaItems] at hI
      rw [hI]

/-- Splitting a `" | "`-join of well-formed items recovers the items. -/
theorem pipeItems_join : ∀ (L : List Str),
    (∀ x ∈ L, pyStrip x = x ∧ x ≠ [] ∧ '|' ∉ x) →
    ((splitOnChar '|' (joinWith (strOf " | ") L)).map pyStrip).filter
      (fun t => !t.isEmpty) = L := by
  intro L
  induction L with
  | nil => intro _; rfl
  | cons x L' ih =>
    intro h
    obtain ⟨hstr, hne, hpipe⟩ := h x (List.mem_cons_self _ _)
    have hrest := fun z hz => h z (List.mem_cons.mpr (Or.inr hz))
    cases L' with
    | nil =>
      rw [show joinWith (strOf " | ") [x] = x from rfl,
        splitOnChar_of_not_mem '|' x hpipe, List.map_cons, List.map_nil, hstr]
      rw [List.filter_cons_of_pos (by
        simpa using fun hc => hne (List.isEmpty_iff.mp hc))]
      rfl
    | cons y L'' =>
      rw [show joinWith (strOf " | ") (x :: y :: L'') =
        x ++ strOf " | " ++ joinWith (strOf " | ") (y :: L'') from rfl]
      rw [show x ++ strOf " | " ++ joinWith (strOf " | ") (y :: L'') =
        (x ++ [' ']) ++ '|' :: (' ' :: joinWith (strOf " | ") (y :: L'')) from by
          simp [strOf]]
      rw [splitOnChar_append_sep '|' (x ++ [' ']) _ (by
        intro hmem
        rcases List.mem_append.mp hmem with hxm | hsp
        · exact hpipe hxm
        · simp at hsp)]
      rw [List.map_cons, map_pyStrip_split_space '|' (by decide) _,
        pyStrip_append_space, hstr]
      rw [List.filter_cons_of_pos (by
        simpa using fun hc => hne (List.isEmpty_iff.mp hc))]
      rw [ih hrest]

/-- C6 (amended): every field of a cleaned metadata object is within its
schema cap; and provided the cleaned fields fit inside their caps before
truncation (so that truncation does not re-cut them), the semantic keywords
are case-insensitively disjoint from the keywords and every surviving
entity-relationship item carries at least two arrows.  (Unconditionally the
original disjointness and arrow invariants can be broken by the raw cut
`truncated[:limit]` applied after validation; see the counterexample.) -/
theorem metadata_invariants (m : MetaFields) :
    ((clean_metadata_response m).keywords.length ≤ 500 ∧
     (clean_metadata_response m).topics.length ≤ 500 ∧
     (clean_metadata_response m).questions.length ≤ 500 ∧
     (clean_metadata_response m).summary.length ≤ 1000 ∧
     (clean_metadata_response m).semanticKeywords.length ≤ 800 ∧
     (clean_metadata_response m).entityRelationships.length ≤ 1000 ∧
     (clean_metadata_response m).attributes.length ≤ 1000) ∧
    ((filterKeywords m).length ≤ 500 → (dedupSemantic m).length ≤ 800 →
      ∀ s ∈ commaItems (clean_metadata_response m).semanticKeywords,
        pyLower s ∉ (commaItems (clean_metadata_response m).keywords).map pyLower) ∧
    ((validateER m).length ≤ 1000 →
      ∀ t ∈ ((splitOnChar '|'
          (clean_metadata_response m).entityRelationships).map pyStrip).filter
          (fun t => !t.isEmpty),
        2 ≤ t.count '→' + countDashArrow t) := by
  refine ⟨⟨truncateField_length_le _ _, truncateField_length_le _ _,
    truncateField_length_le _ _, truncateField_length_le _ _,
    truncateField_length_le _ _, truncateField_length_le _ _,
    truncateField_length_le _ _⟩, ?_, ?_⟩
  · intro hk hs s hsmem
    have hclean_sem : (clean_metadata_response m).semanticKeywords =
        dedupSemantic m := truncateField_of_le 800 _ hs
    have hclean_kw : (clean_metadata_response m).keywords = filterKeywords m :=
      truncateField_of_le 500 _ hk
    rw [hclean_sem] at hsmem
    rw [hclean_kw]
    by_cases hske : m.semanticKeywords.isEmpty
    · rw [dedupSemantic, if_pos hske, List.isEmpty_iff.mp hske] at hsmem
      rw [show commaItems ([] : Str) = [] from rfl] at hsmem
      exact absurd hsmem (List.not_mem_nil s)
    · rw [dedupSemantic, if_neg hske] at hsmem
      have hLspec : ∀ x ∈ (commaItems m.semanticKeywords).filter
          (fun t => pyLower t ∉ keywordsSet m),
          pyStrip x = x ∧ x ≠ [] ∧ ',' ∉ x :=
        fun x hx => commaItems_spec _ x (List.mem_of_mem_filter hx)
      rw [commaItems_join _ hLspec] at hsmem
      have hnotin : pyLower s ∉ keywordsSet m := by
        have := List.of_mem_filter hsmem
        simpa using this
      intro hmem
      by_cases hke : m.keywords.isEmpty
      · rw [filterKeywords, if_pos hke, List.isEmpty_iff.mp hke] at hmem
        rw [show commaItems ([] : Str) = [] from rfl] at hmem
        simp at hmem
      · rw [filterKeywords, if_neg hke] at hmem
        have hKspec : ∀ x ∈ (commaItems m.keywords).filter
            (fun k => pyLower k ∉ generic_placeholders),
            pyStrip x = x ∧ x ≠ [] ∧ ',' ∉ x :=
          fun x hx => commaItems_spec _ x (List.mem_of_mem_filter hx)
        rw [commaItems_join _ hKspec] at hmem
        rcases List.mem_map.mp hmem with ⟨k, hkmem, hkeq⟩
        apply hnotin
        rw [keywordsSet, if_neg hke, ← hkeq]
        exact List.mem_map_of_mem pyLower (List.mem_of_mem_filter hkmem)
  · intro he t htmem
    have hclean_er : (clean_metadata_response m).entityRelationships =
        validateER m := truncateField_of_le 1000 _ he
    rw [hclean_er] at htmem
    by_cases here : m.entityRelationships.isEmpty
    · simp only [validateER] at htmem
      rw [if_pos here, List.isEmpty_iff.mp here] at htmem
      rw [show ((splitOnChar '|' ([] : Str)).map pyStrip).filter
        (fun t => !t.isEmpty) = [] from rfl] at htmem
      exact absurd htmem (List.not_mem_nil t)
    · simp only [validateER] at htmem
      rw [if_neg here] at htmem
      by_cases hvt : (((splitOnChar '|' m.entityRelationships).map
          pyStrip).filter validTriplet).isEmpty
      · rw [if_pos hvt] at htmem
        rw [show ((splitOnChar '|' ([] : Str)).map pyStrip).filter
          (fun t => !t.isEmpty) = [] from rfl] at htmem
        exact absurd htmem (List.not_mem_nil t)
      · rw [if_neg hvt] at htmem
        have hTs : ∀ x ∈ ((splitOnChar '|' m.entityRelationships).map
            pyStrip).filter validTriplet,
            pyStrip x = x ∧ x ≠ [] ∧ '|' ∉ x := by
          intro x hx
          have hx1 := List.mem_of_mem_filter hx
          have hvalid := List.of_mem_filter hx
          obtain ⟨hstr, hpipe⟩ := split_strip_spec '|' m.entityRelationships x hx1
          refine ⟨hstr, ?_, hpipe⟩
          intro hnil
          rw [hnil] at hvalid
          exact absurd hvalid (by decide)
        rw [pipeItems_join _ hTs] at htmem
        have hvalid := List.of_mem_filter htmem
        rw [validTriplet, Bool.and_eq_true] at hvalid
        exact of_decide_eq_true hvalid.2

set_option maxRecDepth 8000 in
/-- C6 counterexample: a 501-character keyword is truncated to its first 500
characters after deduplication already ran, so it collides exactly with a
500-character semantic keyword that survived deduplication — the cleaned
fields intersect case-insensitively. -/
theorem metadata_intersection_counterexample :
    (clean_metadata_response c6cex).keywords = List.replicate 500 'a' ∧
    (clean_metadata_response c6cex).semanticKeywords = List.replicate 500 'a' ∧
    ∃ s ∈ commaItems (clean_metadata_response c6cex).semanticKeywords,
      pyLower s ∈ (commaItems (clean_metadata_response c6cex).keywords).map
        pyLower := by
  refine ⟨by decide, by decide, by decide⟩

/-- Witness for C6 at a concrete well-behaved extraction result: all caps
hold, the duplicate `apple` is gone from the semantic keywords, and the one
surviving relationship triplet has its two arrows. -/
theorem metadata_invariants_witness :
    (filterKeywords c6wit).length ≤ 500 ∧ (dedupSemantic c6wit).length ≤ 800 ∧
    (validateER c6wit).length ≤ 1000 ∧
    (∀ s ∈ commaItems (clean_metadata_response c6wit).semanticKeywords,
      pyLower s ∉ (commaItems (clean_metadata_response c6wit).keywords).map
        pyLower) ∧
    (∀ t ∈ ((splitOnChar '|'
        (clean_metadata_response c6wit).entityRelationships).map pyStrip).filter
        (fun t => !t.isEmpty),
      2 ≤ t.count '→' + countDashArrow t) :=
  ⟨by decide, by decide, by decide,
   (metadata_invariants c6wit).2.1 (by decide) (by decide),
   (metadata_invariants c6wit).2.2 (by decide)⟩

end Spec2Proof
